import Mathlib

/-!
Verification of the Apex whitelist codec and store.

This file embeds, at character level, the core text-parsing and editing
engine of the repository: the `WhitelistService` class of the discord bot
(`parseContent`, `updateWhitelistInContent`, `addUid`, `removeUid`,
`getUids`) and the validation/cache/fallback logic of the SQL whitelist
function `QS_fnc_whitelistDB`.

Strings are modelled as `List Char`.  The two JavaScript regular
expressions used by the codec,

  parse     : if\s*\(\s*_type\s+isEqualTo\s+[qq]ROLE[qq]\s*\)\s*then\s*\x7b[^\x7d]*_return\s*=\s*\[([^\x5d]+)\]
  serialize : (if\s*\(\s*_type\s+isEqualTo\s+[qq]ROLE[qq]\s*\)\s*then\s*\x7b[^\x7d]*_return\s*=\s*\[)[^\x5d]*(\])

(`qq` standing for the single/double quote class) are compiled by hand
into a deterministic character-level matcher: the whitespace runs
followed by non-whitespace literals are deterministic, the only true
backtracking point is the greedy `[^\x7d]*`, which is implemented by
trying the longest admissible prefix first (`greedyScan`), and the
leftmost-match rule of `String.prototype.match`/`replace` is implemented
by scanning start positions from the left (`findMatchAux`).

Modelling notes (deviations that cannot affect the verified claims):
* JavaScript `\s`, `trim` and `toUpperCase` operate on full Unicode; the
  model uses the ASCII whitespace characters and `Char.toUpper`, which
  agree on all ASCII documents and on the configured role names.
* The role name is interpolated into the regex source; all configured
  role names are alphanumeric, so they are matched as literals here.
* `String.prototype.replace` would expand dollar-escape sequences in the
  replacement string; replacements built by `updateWhitelistInContent`
  consist of tabs, newlines, quotes, commas and the identifier digits,
  so no expansion can occur and none is modelled.
* File reads/writes are modelled by passing the file content in and
  returning the new content; `addUid`/`removeUid` return the pair of the
  JS result object and the content that is written back.
-/

set_option maxRecDepth 100000

namespace Apex

/-! ### Character classes -/

/-- ASCII whitespace, the restriction of the JavaScript `\s` class. -/
def isWS (c : Char) : Bool :=
  c == ' ' || c == '\t' || c == '\n' || c == '\r' || c == '\x0b' || c == '\x0c'

/-- Characters that may appear inside a well-formed bracketed identifier
list: digits, quotes, commas and whitespace. -/
def interiorChar (c : Char) : Bool :=
  c.isDigit || c == '\'' || c == '"' || c == ',' || c == ' ' || c == '\t' ||
    c == '\n' || c == '\r'

/-- Characters allowed in a role code (all configured codes are
alphanumeric). -/
def roleChar (c : Char) : Bool := c.isAlpha || c.isDigit

/-! ### JavaScript string primitives -/

/-- `String.prototype.split(',')`. -/
def splitComma : List Char → List (List Char)
  | [] => [[]]
  | c :: r =>
    if c = ',' then [] :: splitComma r
    else
      match splitComma r with
      | [] => [[c]]
      | t :: ts => (c :: t) :: ts

/-- `String.prototype.trim()` (ASCII whitespace). -/
def trim (l : List Char) : List Char :=
  ((l.dropWhile isWS).reverse.dropWhile isWS).reverse

/-- `String.prototype.toUpperCase()` (character-wise upper casing). -/
def upperS (s : String) : String := ⟨s.data.map Char.toUpper⟩

/-! ### The compiled guard regex -/

/-- The literal `isEqualTo`. -/
def isoL : List Char := ['i', 's', 'E', 'q', 'u', 'a', 'l', 'T', 'o']

/-- The ten characters of a canonically spaced guard before `isEqualTo`. -/
def pre10 : List Char := ['i', 'f', ' ', '(', '_', 't', 'y', 'p', 'e', ' ']

/-- The literal `_type`. -/
def tyL : List Char := ['_', 't', 'y', 'p', 'e']

/-- The literal `then`. -/
def thenL : List Char := ['t', 'h', 'e', 'n']

/-- The closing part of a canonically spaced guard after the role name. -/
def rtClose : List Char := ['\'', ')', ' ', 't', 'h', 'e', 'n', ' ', '\x7b']

/-- The part of a canonically spaced guard following `isEqualTo`:
a space, a quote, the role name, then `rtClose`. -/
def roleTailL (r : List Char) : List Char := ' ' :: '\'' :: (r ++ rtClose)

/-- The full canonically spaced guard for a role, as it appears in
`whitelist.sqf`. -/
def guardText (role : String) : List Char := pre10 ++ isoL ++ roleTailL role.data

/-- The literal `_return = [` with canonical spacing. -/
def retL : List Char := ['_', 'r', 'e', 't', 'u', 'r', 'n', ' ', '=', ' ', '[']

/-- Consume a literal. -/
def eatLit : List Char → List Char → Option (List Char)
  | [], s => some s
  | _, [] => none
  | l :: ls, c :: cs => if l = c then eatLit ls cs else none

/-- Consume `\s*`: the maximal whitespace run (deterministic because every
following pattern element starts with a non-whitespace character). -/
def eatWS (s : List Char) : List Char × List Char :=
  (s.takeWhile isWS, s.dropWhile isWS)

/-- Consume `\s+`. -/
def eatWS1 : List Char → Option (List Char × List Char)
  | [] => none
  | c :: r => if isWS c then some (c :: r.takeWhile isWS, r.dropWhile isWS) else none

/-- Consume the quote class, single or double quote. -/
def eatQuote : List Char → Option (Char × List Char)
  | [] => none
  | c :: r => if c = '\'' ∨ c = '"' then some (c, r) else none

/-- Match `if\s*\(\s*_type\s+` at the start of `s` (the part of the guard
pattern before the literal `isEqualTo`).  Returns the consumed text and
the rest. -/
def gm1 (s : List Char) : Option (List Char × List Char) :=
  match eatLit ['i', 'f'] s with
  | none => none
  | some r1 =>
    match eatWS r1 with
    | (w1, r2) =>
      match eatLit ['('] r2 with
      | none => none
      | some r3 =>
        match eatWS r3 with
        | (w2, r4) =>
          match eatLit tyL r4 with
          | none => none
          | some r5 =>
            match eatWS1 r5 with
            | none => none
            | some (w3, r6) => some (['i', 'f'] ++ w1 ++ ['('] ++ w2 ++ tyL ++ w3, r6)

/-- Match `\s+[quote]ROLE[quote]\s*\)\s*then\s*\x7b` at the start of `s`
(the part of the guard pattern after the literal `isEqualTo`). -/
def gm3 (role : String) (s : List Char) : Option (List Char × List Char) :=
  match eatWS1 s with
  | none => none
  | some (w4, r8) =>
    match eatQuote r8 with
    | none => none
    | some (q1, r9) =>
      match eatLit role.data r9 with
      | none => none
      | some r10 =>
        match eatQuote r10 with
        | none => none
        | some (q2, r11) =>
          match eatWS r11 with
          | (w5, r12) =>
            match eatLit [')'] r12 with
            | none => none
            | some r13 =>
              match eatWS r13 with
              | (w6, r14) =>
                match eatLit thenL r14 with
                | none => none
                | some r15 =>
                  match eatWS r15 with
                  | (w7, r16) =>
                    match eatLit ['\x7b'] r16 with
                    | none => none
                    | some r17 =>
                      some (w4 ++ [q1] ++ role.data ++ [q2] ++ w5 ++ [')'] ++ w6 ++
                              thenL ++ w7 ++ ['\x7b'], r17)

/-- Match the guard part of the pattern at the start of `s`:
`if\s*\(\s*_type\s+isEqualTo\s+[quote]ROLE[quote]\s*\)\s*then\s*\x7b`.
Returns the consumed text and the rest. -/
def guardMatch (role : String) (s : List Char) : Option (List Char × List Char) :=
  match gm1 s with
  | none => none
  | some (c1, r) =>
    match eatLit isoL r with
    | none => none
    | some r2 =>
      match gm3 role r2 with
      | none => none
      | some (c3, rest) => some (c1 ++ isoL ++ c3, rest)

/-- Match `_return\s*=\s*\[`, then the bracket interior `[^\x5d]*` (or
`[^\x5d]+` when `ne` is set, as in the parse pattern) and the closing
bracket, at the start of `s`.  Returns the text consumed up to and
including the opening bracket, the interior, and the rest after the
closing bracket. -/
def retMatch (ne : Bool) (s : List Char) : Option (List Char × List Char × List Char) :=
  match eatLit ['_', 'r', 'e', 't', 'u', 'r', 'n'] s with
  | none => none
  | some r1 =>
    match eatWS r1 with
    | (w1, r2) =>
      match eatLit ['='] r2 with
      | none => none
      | some r3 =>
        match eatWS r3 with
        | (w2, r4) =>
          match eatLit ['['] r4 with
          | none => none
          | some r5 =>
            match r5.dropWhile (fun c => c != ']') with
            | ']' :: rest =>
              if ne && (r5.takeWhile (fun c => c != ']')).isEmpty then none
              else some (['_', 'r', 'e', 't', 'u', 'r', 'n'] ++ w1 ++ ['='] ++ w2 ++ ['['],
                          r5.takeWhile (fun c => c != ']'), rest)
            | _ => none

/-- Try `retMatch` after `k` characters consumed by `[^\x7d]*`. -/
def tryRet (ne : Bool) (s : List Char) (k : Nat) : Option (List Char × List Char × List Char) :=
  match retMatch ne (s.drop k) with
  | none => none
  | some (c, interior, rest) => some (s.take k ++ c, interior, rest)

/-- Greedy matching of `[^\x7d]*`: try the longest allowed prefix first,
backtracking to shorter ones. -/
def greedyScan (ne : Bool) (s : List Char) : Nat → Option (List Char × List Char × List Char)
  | 0 => tryRet ne s 0
  | k + 1 =>
    match tryRet ne s (k + 1) with
    | some v => some v
    | none => greedyScan ne s k

/-- Match `[^\x7d]*_return\s*=\s*\[ interior \]` at the start of `s`. -/
def bodyMatch (ne : Bool) (s : List Char) : Option (List Char × List Char × List Char) :=
  greedyScan ne s (s.takeWhile (fun c => c != '\x7d')).length

/-- Attempt the whole pattern at the start of `s`.  Returns the text of
capture group 1 (everything up to and including the opening bracket),
the bracket interior, and the rest after the closing bracket. -/
def matchAt (role : String) (ne : Bool) (s : List Char) :
    Option (List Char × List Char × List Char) :=
  match guardMatch role s with
  | none => none
  | some (g, r) =>
    match bodyMatch ne r with
    | none => none
    | some (b, interior, rest) => some (g ++ b, interior, rest)

/-- Leftmost match: try every start position from the left, as the
JavaScript regex engine does.  `acc` accumulates the text before the
current start position; the result is `(before, group1, interior, rest)`. -/
def findMatchAux (role : String) (ne : Bool) :
    List Char → List Char → Option (List Char × List Char × List Char × List Char)
  | acc, [] =>
    -- the pattern starts with the literal `if` and cannot match the empty suffix
    match matchAt role ne [] with
    | some (g1, interior, rest) => some (acc, g1, interior, rest)
    | none => none
  | acc, c :: s =>
    match matchAt role ne (c :: s) with
    | some (g1, interior, rest) => some (acc, g1, interior, rest)
    | none => findMatchAux role ne (acc ++ [c]) s

/-- First match of the (parse or serialize) pattern in `content`. -/
def findMatch (role : String) (ne : Bool) (content : List Char) :
    Option (List Char × List Char × List Char × List Char) :=
  findMatchAux role ne [] content

/-! ### The codec (`WhitelistService.parseContent` and
`WhitelistService.updateWhitelistInContent`) -/

/-- The configured role names (`config.whitelistRoles` of the discord
bot, in configuration order). -/
def validRoles : List String :=
  ["S3", "CAS", "S1", "OPFOR", "ALL", "ADMIN", "MODERATOR", "TRUSTED", "MEDIA",
    "CURATOR", "DEVELOPER"]

/-- `uid.trim().replace(/['"]/g, '')`. -/
def cleanTok (t : List Char) : List Char :=
  (trim t).filter (fun c => c != '\'' && c != '"')

/-- `uid && uid !== '' && uid.match(/^\d+$/)`. -/
def isDigitTok (t : List Char) : Bool := !t.isEmpty && t.all Char.isDigit

/-- Split the captured bracket interior on commas, trim and dequote each
token, and keep the fully numeric ones (`parseContent`, inner loop). -/
def extractUids (interior : List Char) : List (List Char) :=
  ((splitComma interior).map cleanTok).filter isDigitTok

/-- The per-role body of `WhitelistService.parseContent`: first match of
the parse pattern, or the empty list when the pattern does not match. -/
def parseRole (content : List Char) (role : String) : List (List Char) :=
  match findMatch role true content with
  | some (_, _, interior, _) => extractUids interior
  | none => []

/-- `WhitelistService.parseContent`: the role-indexed map of identifier
lists, in configuration order. -/
def parseContent (content : List Char) : List (String × List (List Char)) :=
  validRoles.map (fun r => (r, parseRole content r))

/-- `'\t\t' + quote + uid + quote` — one formatted identifier line. -/
def fmtUid (u : List Char) : List Char := '\t' :: '\t' :: '\'' :: (u ++ ['\''])

/-- `uids.map(fmtUid).join(',\n')`. -/
def joinUids : List (List Char) → List Char
  | [] => []
  | [u] => fmtUid u
  | u :: us => fmtUid u ++ ',' :: '\n' :: joinUids us

/-- The replacement text written between the brackets:
`formattedUids ? '\n' + joined + '\n\t' : '\n\t'`. -/
def replacementFor (uids : List (List Char)) : List Char :=
  if uids.isEmpty then ['\n', '\t']
  else '\n' :: (joinUids uids ++ ['\n', '\t'])

/-- `WhitelistService.updateWhitelistInContent`: replace the bracket
interior of the first match of the serialize pattern, keeping groups 1
and 2; return the content unchanged when there is no match. -/
def updateWhitelistInContent (content : List Char) (role : String)
    (uids : List (List Char)) : List Char :=
  match findMatch role false content with
  | none => content
  | some (pre, g1, _, rest) => pre ++ g1 ++ replacementFor uids ++ ']' :: rest

/-! ### The store (`addUid`, `removeUid`, `getUids`) -/

/-- The `{success, message}` result object of the store operations. -/
structure OpResult where
  success : Bool
  message : String
deriving Repr, DecidableEq

/-- `validRoles.join(', ')`. -/
def rolesJoined : String := String.intercalate ", " validRoles

def invalidRoleMsg (role : String) : String :=
  "Invalid role: " ++ role ++ ". Valid roles: " ++ rolesJoined

def invalidUidMsg (uid : String) : String :=
  "Invalid Steam UID format: " ++ uid ++ ". Must be a 17-digit number."

def alreadyMsg (uid roleU : String) : String :=
  "UID " ++ uid ++ " is already in the " ++ roleU ++ " whitelist."

def addedMsg (uid roleU : String) : String :=
  "Successfully added " ++ uid ++ " to the " ++ roleU ++ " whitelist."

def notInMsg (uid roleU : String) : String :=
  "UID " ++ uid ++ " is not in the " ++ roleU ++ " whitelist."

def removedMsg (uid roleU : String) : String :=
  "Successfully removed " ++ uid ++ " from the " ++ roleU ++ " whitelist."

/-- `validRoles.includes(role.toUpperCase())`. -/
def jsRoleValid (role : String) : Bool := validRoles.contains (upperS role)

/-- `uid.match(/^\d\x7b17\x7d$/)`: exactly seventeen digits. -/
def isSteam64 (uid : String) : Bool := uid.data.length == 17 && uid.data.all Char.isDigit

/-- `whitelists.get(roleU) || []` over the parsed content. -/
def curUids (content : List Char) (roleU : String) : List (List Char) :=
  ((parseContent content).lookup roleU).getD []

/-- `WhitelistService.addUid`, with the file content passed explicitly;
returns the result object and the content written back. -/
def addUid (content : List Char) (role uid : String) : OpResult × List Char :=
  if !jsRoleValid role then (⟨false, invalidRoleMsg role⟩, content)
  else if !isSteam64 uid then (⟨false, invalidUidMsg uid⟩, content)
  else
    let normalizedRole := upperS role
    let cur := curUids content normalizedRole
    if cur.contains uid.data then (⟨false, alreadyMsg uid normalizedRole⟩, content)
    else
      (⟨true, addedMsg uid normalizedRole⟩,
        updateWhitelistInContent content normalizedRole (cur ++ [uid.data]))

/-- `WhitelistService.removeUid`. -/
def removeUid (content : List Char) (role uid : String) : OpResult × List Char :=
  if !jsRoleValid role then (⟨false, invalidRoleMsg role⟩, content)
  else
    let normalizedRole := upperS role
    let cur := curUids content normalizedRole
    if !(cur.contains uid.data) then (⟨false, notInMsg uid normalizedRole⟩, content)
    else
      (⟨true, removedMsg uid normalizedRole⟩,
        updateWhitelistInContent content normalizedRole
          (cur.filter (fun u => u != uid.data)))

/-- `WhitelistService.getUids`: parse the current content and return the
role entry, defaulting to the empty list. -/
def getUids (content : List Char) (role : String) : List (List Char) :=
  ((parseContent content).lookup (upperS role)).getD []

/-! ### The database variant (`QS_fnc_whitelistDB`) -/

/-- The `_validTypes` array of `fn_whitelistDB.sqf`. -/
def validTypes : List String :=
  ["S3", "CAS", "S1", "OPFOR", "ALL", "ADMIN", "MODERATOR", "TRUSTED", "MEDIA",
    "CURATOR", "DEVELOPER"]

/-- `_type in _validTypes`.  The SQF `in` operator on an array of strings
compares case-sensitively (unlike SQF `==`), so this is an exact
membership test with no case normalization. -/
def sqfTypeCheck (t : String) : Bool := validTypes.contains t

/-- The ambient state read and written by `QS_fnc_whitelistDB` for one
whitelist type: the mission-namespace variables, the clock, and oracles
for the two external collaborators (the ExtDB3 query, `none` meaning the
query threw, and the file-based fallback `QS_fnc_whitelistFile`). -/
structure DBEnv where
  dbEnabled : Bool
  cacheDurationVar : Option Int
  cached : List String
  cacheTime : Int
  currentTime : Int
  queryOutcome : Option (List String)
  fileWhitelist : List String

/-- `_return pushBackUnique x`. -/
def pushUnique (acc : List String) (x : String) : List String :=
  if acc.contains x then acc else acc ++ [x]

/-- Folding the query rows with `pushBackUnique`. -/
def dedup (rows : List String) : List String := rows.foldl pushUnique []

/-- `missionNamespace getVariable ['QS_whitelist_cacheDuration', 300]`. -/
def cacheDuration (env : DBEnv) : Int := env.cacheDurationVar.getD 300

/-- `(count _cachedResult) > 0 && (_currentTime - _cacheTime) < _cacheDuration`. -/
def cacheValid (env : DBEnv) : Bool :=
  env.cached.length > 0 && env.currentTime - env.cacheTime < cacheDuration env

/-- The try/catch body: the deduplicated query rows, or the file fallback
when the query threw. -/
def dbQueryReturn (env : DBEnv) : List String :=
  match env.queryOutcome with
  | none => env.fileWhitelist
  | some rows => dedup rows

/-- `QS_fnc_whitelistDB`: returns the whitelist and the updated ambient
state. -/
def whitelistDB (t : String) (forceRefresh : Bool) (env : DBEnv) : List String × DBEnv :=
  if !(sqfTypeCheck t) then ([], env)
  else if !env.dbEnabled then (env.fileWhitelist, env)
  else if !forceRefresh && cacheValid env then (env.cached, env)
  else
    let r0 := dbQueryReturn env
    let r := if r0.length == 0 then env.fileWhitelist else r0
    (r, { env with cached := r, cacheTime := env.currentTime })

/-! ### Basic properties of the consumers -/

theorem eatLit_self : ∀ (l t : List Char), eatLit l (l ++ t) = some t
  | [], t => by simp [eatLit]
  | c :: ls, t => by simp [eatLit, eatLit_self ls t]

theorem eatLit_eq : ∀ {l s r : List Char}, eatLit l s = some r → s = l ++ r
  | [], s, r, h => by simp [eatLit] at h; simp [h]
  | _ :: _, [], _, h => by simp [eatLit] at h
  | c :: ls, c' :: cs, r, h => by
    by_cases hc : c = c'
    · subst hc
      simp only [eatLit, if_pos rfl] at h
      simpa using eatLit_eq h
    · simp [eatLit, hc] at h

theorem eatWS_eq (s : List Char) : s = (eatWS s).1 ++ (eatWS s).2 :=
  (List.takeWhile_append_dropWhile ..).symm

theorem eatWS_all (s : List Char) : (eatWS s).1.all isWS = true := by
  rw [List.all_eq_true]
  intro c hc
  exact List.mem_takeWhile_imp hc

theorem eatWS1_eq {s a r : List Char} (h : eatWS1 s = some (a, r)) :
    s = a ++ r ∧ a.all isWS = true ∧ a ≠ [] := by
  match s with
  | [] => simp [eatWS1] at h
  | c :: cs =>
    by_cases hw : isWS c
    · simp only [eatWS1, if_pos hw] at h
      obtain ⟨rfl, rfl⟩ : c :: cs.takeWhile isWS = a ∧ cs.dropWhile isWS = r := by
        simpa using h
      refine ⟨by simp [List.takeWhile_append_dropWhile], ?_, by simp⟩
      simp only [List.all_cons, hw, Bool.true_and]
      exact eatWS_all cs
    · simp [eatWS1, hw] at h

theorem eatQuote_eq {s : List Char} {q : Char} {r : List Char}
    (h : eatQuote s = some (q, r)) : s = q :: r ∧ (q = '\'' ∨ q = '"') := by
  match s with
  | [] => simp [eatQuote] at h
  | c :: cs =>
    by_cases hc : c = '\'' ∨ c = '"'
    · simp only [eatQuote, if_pos hc] at h
      obtain ⟨rfl, rfl⟩ : c = q ∧ cs = r := by simpa using h
      exact ⟨rfl, hc⟩
    · simp [eatQuote, hc] at h

/-! ### Shape of a successful guard-head match -/

/-- The language of `if\s*\(\s*_type\s+`: what `gm1` consumes. -/
def LHead (w : List Char) : Prop :=
  ∃ w1 w2 w3, w = ['i', 'f'] ++ w1 ++ ['('] ++ w2 ++ tyL ++ w3 ∧
    w1.all isWS = true ∧ w2.all isWS = true ∧ w3.all isWS = true

theorem countP_eq_zero_of_all {l : List Char} (h : l.all isWS = true) :
    l.countP (fun c => !isWS c) = 0 := by
  rw [List.countP_eq_zero]
  intro a ha
  rw [List.all_eq_true] at h
  simp [h a ha]

theorem LHead_countP {w : List Char} (h : LHead w) :
    w.countP (fun c => !isWS c) = 8 := by
  obtain ⟨w1, w2, w3, rfl, h1, h2, h3⟩ := h
  simp only [List.countP_append, countP_eq_zero_of_all h1, countP_eq_zero_of_all h2,
    countP_eq_zero_of_all h3]
  decide

theorem LHead_pre10 : LHead pre10 :=
  ⟨[' '], [], [' '], by decide, by decide, by decide, by decide⟩

theorem LHead_head : ∀ {w : List Char}, LHead w → ∃ t, w = 'i' :: t := by
  intro w h
  obtain ⟨w1, w2, w3, rfl, -⟩ := h
  exact ⟨_, rfl⟩

/-- Two guard-head segments ending at the same position coincide. -/
theorem LHead_align {w w' X X' : List Char} (hw : LHead w) (hw' : LHead w')
    (h : X ++ w = X' ++ w') : X = X' ∧ w = w' := by
  have hww : w = w' := by
    rcases List.append_eq_append_iff.mp h with ⟨m, hm1, hm2⟩ | ⟨m, hm1, hm2⟩
    · -- w = m ++ w'
      rcases m with - | ⟨c, m'⟩
      · simpa using hm2
      · exfalso
        have hc8 : w.countP (fun c => !isWS c) = 8 := LHead_countP hw
        have hc8' : w'.countP (fun c => !isWS c) = 8 := LHead_countP hw'
        have hm0 : (c :: m').countP (fun c => !isWS c) = 0 := by
          rw [hm2, List.countP_append, hc8'] at hc8
          omega
        have hcw : isWS c = true := by
          rw [List.countP_eq_zero] at hm0
          have := hm0 c (by simp)
          simpa using this
        obtain ⟨t, ht⟩ := LHead_head hw
        rw [hm2] at ht
        have : c = 'i' := by simpa using congrArg List.head? ht
        subst this
        simp [isWS] at hcw
    · -- w' = m ++ w
      rcases m with - | ⟨c, m'⟩
      · simpa using hm2.symm
      · exfalso
        have hc8 : w.countP (fun c => !isWS c) = 8 := LHead_countP hw
        have hc8' : w'.countP (fun c => !isWS c) = 8 := LHead_countP hw'
        have hm0 : (c :: m').countP (fun c => !isWS c) = 0 := by
          rw [hm2, List.countP_append, hc8] at hc8'
          omega
        have hcw : isWS c = true := by
          rw [List.countP_eq_zero] at hm0
          have := hm0 c (by simp)
          simpa using this
        obtain ⟨t, ht⟩ := LHead_head hw'
        rw [hm2] at ht
        have : c = 'i' := by simpa using congrArg List.head? ht
        subst this
        simp [isWS] at hcw
  subst hww
  exact ⟨List.append_cancel_right h, rfl⟩

theorem gm1_decomp {s c r : List Char} (h : gm1 s = some (c, r)) :
    LHead c ∧ s = c ++ r := by
  unfold gm1 at h
  cases h1 : eatLit ['i', 'f'] s with
  | none => rw [h1] at h; simp at h
  | some r1 =>
    rw [h1] at h
    simp only [] at h
    rcases hws : eatWS r1 with ⟨w1, r2⟩
    rw [hws] at h
    simp only [] at h
    cases h2 : eatLit ['('] r2 with
    | none => rw [h2] at h; simp at h
    | some r3 =>
      rw [h2] at h
      simp only [] at h
      rcases hws2 : eatWS r3 with ⟨w2, r4⟩
      rw [hws2] at h
      simp only [] at h
      cases h3 : eatLit tyL r4 with
      | none => rw [h3] at h; simp at h
      | some r5 =>
        rw [h3] at h
        simp only [] at h
        cases h4 : eatWS1 r5 with
        | none => rw [h4] at h; simp at h
        | some p =>
          rcases p with ⟨w3, r6⟩
          rw [h4] at h
          simp only [] at h
          obtain ⟨rfl, rfl⟩ : ['i', 'f'] ++ w1 ++ ['('] ++ w2 ++ tyL ++ w3 = c ∧ r6 = r := by
            simpa using h
          obtain ⟨hr5, hw3, -⟩ := eatWS1_eq h4
          have e1 : s = ['i', 'f'] ++ r1 := eatLit_eq h1
          have e2 : r1 = w1 ++ r2 := by simpa [hws] using eatWS_eq r1
          have e3 : r2 = ['('] ++ r3 := eatLit_eq h2
          have e4 : r3 = w2 ++ r4 := by simpa [hws2] using eatWS_eq r3
          have e5 : r4 = tyL ++ r5 := eatLit_eq h3
          refine ⟨⟨w1, w2, w3, rfl, ?_, ?_, hw3⟩, ?_⟩
          · simpa [hws] using eatWS_all r1
          · simpa [hws2] using eatWS_all r3
          · simp [e1, e2, e3, e4, e5, hr5]

/-! ### Evaluation of the guard matcher on canonical guards -/

theorem gm1_iso (Y : List Char) : gm1 (pre10 ++ isoL ++ Y) = some (pre10, isoL ++ Y) := rfl

theorem roleChar_not_quote {c : Char} (h : roleChar c = true) : c ≠ '\'' ∧ c ≠ '"' := by
  constructor <;> rintro rfl <;> revert h <;> decide

theorem eatLit_quote_fail :
    ∀ (a b : List Char), (∀ c ∈ a, roleChar c = true) → (∀ c ∈ b, roleChar c = true) →
      a ≠ b → ∀ Z : List Char,
      eatLit a (b ++ '\'' :: Z) = none ∨
        ∃ r, eatLit a (b ++ '\'' :: Z) = some r ∧ eatQuote r = none
  | [], b, _, hb, hne, Z => by
    cases b with
    | nil => exact absurd rfl hne
    | cons y b' =>
      right
      refine ⟨y :: (b' ++ '\'' :: Z), by simp [eatLit], ?_⟩
      have hy := roleChar_not_quote (hb y (by simp))
      have : ¬(y = '\'' ∨ y = '"') := by
        rintro (rfl | rfl)
        · exact hy.1 rfl
        · exact hy.2 rfl
      simp [eatQuote, this]
  | x :: a', b, ha, hb, hne, Z => by
    cases b with
    | nil =>
      left
      have hx := roleChar_not_quote (ha x (by simp))
      simp [eatLit, hx.1]
    | cons y b' =>
      by_cases hxy : x = y
      · subst hxy
        have hrec := eatLit_quote_fail a' b' (fun c hc => ha c (by simp [hc]))
          (fun c hc => hb c (by simp [hc])) (fun he => hne (by rw [he])) Z
        simpa [eatLit] using hrec
      · left
        simp [eatLit, hxy]

theorem gm3_mismatch (role : String) {Rp : List Char} (Y : List Char)
    (hRp : ∀ c ∈ Rp, roleChar c = true) (hrole : ∀ c ∈ role.data, roleChar c = true)
    (hne : role.data ≠ Rp) :
    gm3 role (roleTailL Rp ++ Y) = none := by
  have h1 : roleTailL Rp ++ Y =
      ' ' :: '\'' :: (Rp ++ '\'' :: (')' :: ' ' :: 't' :: 'h' :: 'e' :: 'n' :: ' ' :: '\x7b' :: Y)) := by
    simp [roleTailL, rtClose]
  rw [h1]
  unfold gm3
  generalize hZ : Rp ++ '\'' :: (')' :: ' ' :: 't' :: 'h' :: 'e' :: 'n' :: ' ' :: '\x7b' :: Y) = Z
  rw [show eatWS1 (' ' :: '\'' :: Z) = some ([' '], '\'' :: Z) from rfl]
  simp only []
  rw [show eatQuote ('\'' :: Z) = some ('\'', Z) from rfl]
  simp only []
  subst hZ
  rcases eatLit_quote_fail role.data Rp hrole hRp hne
      (')' :: ' ' :: 't' :: 'h' :: 'e' :: 'n' :: ' ' :: '\x7b' :: Y) with hfail | ⟨r, hsome, hq⟩
  · rw [hfail]
  · rw [hsome]
    simp only []
    rw [hq]

theorem gm3_eval (role : String) (T : List Char) :
    gm3 role (roleTailL role.data ++ T) = some (roleTailL role.data, T) := by
  have h1 : roleTailL role.data ++ T =
      ' ' :: '\'' :: (role.data ++ ('\'' :: ')' :: ' ' :: 't' :: 'h' :: 'e' :: 'n' :: ' ' :: '\x7b' :: T)) := by
    simp [roleTailL, rtClose]
  rw [h1]
  unfold gm3
  generalize hZ : role.data ++ ('\'' :: ')' :: ' ' :: 't' :: 'h' :: 'e' :: 'n' :: ' ' :: '\x7b' :: T) = Z
  rw [show eatWS1 (' ' :: '\'' :: Z) = some ([' '], '\'' :: Z) from rfl]
  simp only []
  rw [show eatQuote ('\'' :: Z) = some ('\'', Z) from rfl]
  simp only []
  subst hZ
  rw [eatLit_self]
  simp only []
  rw [show eatQuote ('\'' :: ')' :: ' ' :: 't' :: 'h' :: 'e' :: 'n' :: ' ' :: '\x7b' :: T) =
        some ('\'', ')' :: ' ' :: 't' :: 'h' :: 'e' :: 'n' :: ' ' :: '\x7b' :: T) from rfl]
  simp only []
  rw [show eatWS (')' :: ' ' :: 't' :: 'h' :: 'e' :: 'n' :: ' ' :: '\x7b' :: T) =
        ([], ')' :: ' ' :: 't' :: 'h' :: 'e' :: 'n' :: ' ' :: '\x7b' :: T) from rfl]
  simp only []
  rw [show eatLit [')'] (')' :: ' ' :: 't' :: 'h' :: 'e' :: 'n' :: ' ' :: '\x7b' :: T) =
        some (' ' :: 't' :: 'h' :: 'e' :: 'n' :: ' ' :: '\x7b' :: T) from rfl]
  simp only []
  rw [show eatWS (' ' :: 't' :: 'h' :: 'e' :: 'n' :: ' ' :: '\x7b' :: T) =
        ([' '], 't' :: 'h' :: 'e' :: 'n' :: ' ' :: '\x7b' :: T) from rfl]
  simp only []
  rw [show eatLit thenL ('t' :: 'h' :: 'e' :: 'n' :: ' ' :: '\x7b' :: T) =
        some (' ' :: '\x7b' :: T) from rfl]
  simp only []
  rw [show eatWS (' ' :: '\x7b' :: T) = ([' '], '\x7b' :: T) from rfl]
  simp only []
  rw [show eatLit ['\x7b'] ('\x7b' :: T) = some T from eatLit_self ['\x7b'] T]
  simp only []
  simp [roleTailL, rtClose, thenL]

theorem guardMatch_self (role : String) (T : List Char) :
    guardMatch role (guardText role ++ T) = some (guardText role, T) := by
  have h1 : guardText role ++ T = pre10 ++ isoL ++ (roleTailL role.data ++ T) := by
    simp [guardText]
  rw [h1]
  unfold guardMatch
  rw [gm1_iso]
  simp only []
  rw [eatLit_self]
  simp only []
  rw [gm3_eval]
  simp only []
  simp [guardText]

theorem guardMatch_mismatch (role : String) {Rp : List Char} (Y : List Char)
    (hRp : ∀ c ∈ Rp, roleChar c = true) (hrole : ∀ c ∈ role.data, roleChar c = true)
    (hne : role.data ≠ Rp) :
    guardMatch role (pre10 ++ isoL ++ (roleTailL Rp ++ Y)) = none := by
  unfold guardMatch
  rw [gm1_iso]
  simp only []
  rw [eatLit_self]
  simp only []
  rw [gm3_mismatch role Y hRp hrole hne]

theorem guardMatch_decomp {role : String} {s c r : List Char}
    (h : guardMatch role s = some (c, r)) :
    ∃ w r2, LHead w ∧ s = w ++ isoL ++ r2 ∧ gm3 role r2 ≠ none := by
  unfold guardMatch at h
  cases h1 : gm1 s with
  | none => rw [h1] at h; simp at h
  | some p =>
    rcases p with ⟨c1, r1⟩
    rw [h1] at h
    simp only [] at h
    cases h2 : eatLit isoL r1 with
    | none => rw [h2] at h; simp at h
    | some r2 =>
      rw [h2] at h
      simp only [] at h
      cases h3 : gm3 role r2 with
      | none => rw [h3] at h; simp at h
      | some q =>
        obtain ⟨hL, hs⟩ := gm1_decomp h1
        refine ⟨c1, r2, hL, ?_, by simp [h3]⟩
        rw [hs, eatLit_eq h2]
        simp [List.append_assoc]

/-! ### The body matcher on a well-formed block -/

theorem takeWhile_append_all {p : Char → Bool} :
    ∀ {l : List Char} (r : List Char), l.all p = true →
      (l ++ r).takeWhile p = l ++ r.takeWhile p
  | [], r, _ => rfl
  | a :: l, r, h => by
    have ⟨ha, hl⟩ : p a = true ∧ l.all p = true := by simpa using h
    simp [List.takeWhile_cons_of_pos ha, takeWhile_append_all r hl]

theorem dropWhile_append_all {p : Char → Bool} :
    ∀ {l : List Char} (r : List Char), l.all p = true →
      (l ++ r).dropWhile p = r.dropWhile p
  | [], r, _ => rfl
  | a :: l, r, h => by
    have ⟨ha, hl⟩ : p a = true ∧ l.all p = true := by simpa using h
    simp [List.dropWhile_cons_of_pos ha, dropWhile_append_all r hl]

theorem head?_dropWhile_false {p : Char → Bool} :
    ∀ (l : List Char) {c : Char}, (l.dropWhile p).head? = some c → p c = false
  | [], c, h => by simp at h
  | a :: l, c, h => by
    by_cases ha : p a = true
    · rw [List.dropWhile_cons_of_pos ha] at h
      exact head?_dropWhile_false l h
    · rw [List.dropWhile_cons_of_neg ha] at h
      obtain rfl : a = c := by simpa using h
      simpa using ha

theorem interiorChar_not_mem {c : Char} (h : interiorChar c = true) :
    c ≠ ']' ∧ c ≠ '\x7d' ∧ c ≠ '_' ∧ c ≠ '\x7b' ∧ c ≠ 'i' := by
  refine ⟨?_, ?_, ?_, ?_, ?_⟩ <;> rintro rfl <;> revert h <;> decide

theorem all_of_interior {old : List Char} (h : old.all interiorChar = true)
    (p : Char → Bool) (hp : ∀ c, interiorChar c = true → p c = true) : old.all p = true := by
  rw [List.all_eq_true] at h ⊢
  intro c hc
  exact hp c (h c hc)

/-- Evaluation of `retMatch` at the canonical `_return = [` of a block. -/
theorem retMatch_eval (ne : Bool) (old post : List Char)
    (hO : old.all (fun c => c != ']') = true) (hne : ne = true → old ≠ []) :
    retMatch ne (retL ++ (old ++ ']' :: post)) = some (retL, old, post) := by
  have h1 : retL ++ (old ++ ']' :: post) =
      '_' :: 'r' :: 'e' :: 't' :: 'u' :: 'r' :: 'n' ::
        (' ' :: '=' :: ' ' :: '[' :: (old ++ ']' :: post)) := by
    simp [retL]
  rw [h1]
  unfold retMatch
  rw [show eatLit ['_', 'r', 'e', 't', 'u', 'r', 'n']
        ('_' :: 'r' :: 'e' :: 't' :: 'u' :: 'r' :: 'n' ::
          (' ' :: '=' :: ' ' :: '[' :: (old ++ ']' :: post))) =
      some (' ' :: '=' :: ' ' :: '[' :: (old ++ ']' :: post)) from
    eatLit_self ['_', 'r', 'e', 't', 'u', 'r', 'n'] _]
  simp only []
  rw [show eatWS (' ' :: '=' :: ' ' :: '[' :: (old ++ ']' :: post)) =
      ([' '], '=' :: ' ' :: '[' :: (old ++ ']' :: post)) from rfl]
  simp only []
  rw [show eatLit ['='] ('=' :: ' ' :: '[' :: (old ++ ']' :: post)) =
      some (' ' :: '[' :: (old ++ ']' :: post)) from eatLit_self ['='] _]
  simp only []
  rw [show eatWS (' ' :: '[' :: (old ++ ']' :: post)) =
      ([' '], '[' :: (old ++ ']' :: post)) from rfl]
  simp only []
  rw [show eatLit ['['] ('[' :: (old ++ ']' :: post)) = some (old ++ ']' :: post) from
    eatLit_self ['['] _]
  simp only []
  rw [takeWhile_append_all _ hO, dropWhile_append_all _ hO]
  rw [List.takeWhile_cons_of_neg (by decide), List.dropWhile_cons_of_neg (by decide)]
  simp only [List.append_nil]
  cases ne with
  | false => simp [retL]
  | true =>
    have : old.isEmpty = false := by
      cases old with
      | nil => exact absurd rfl (hne rfl)
      | cons a l => rfl
    simp [this, retL]

theorem retMatch_none_of_head (ne : Bool) {s : List Char}
    (h : ∀ c, s.head? = some c → c ≠ '_') : retMatch ne s = none := by
  cases s with
  | nil => simp [retMatch, eatLit]
  | cons c cs =>
    have hc : c ≠ '_' := h c rfl
    unfold retMatch
    rw [show eatLit ['_', 'r', 'e', 't', 'u', 'r', 'n'] (c :: cs) =
        (if '_' = c then eatLit ['r', 'e', 't', 'u', 'r', 'n'] cs else none) from rfl]
    rw [if_neg (fun hh : '_' = c => hc hh.symm)]

theorem greedyScan_hit (ne : Bool) (s : List Char) {v : List Char × List Char × List Char}
    (k0 : Nat) :
    ∀ K, k0 ≤ K → (∀ k, k0 < k → k ≤ K → tryRet ne s k = none) →
      tryRet ne s k0 = some v → greedyScan ne s K = some v := by
  intro K
  induction K with
  | zero =>
    intro hle _ hs
    obtain rfl : k0 = 0 := Nat.le_zero.mp hle
    simpa [greedyScan] using hs
  | succ K ih =>
    intro hle hfail hs
    by_cases hk : k0 = K + 1
    · subst hk
      simp only [greedyScan]
      rw [hs]
    · have hle' : k0 ≤ K := Nat.lt_succ_iff.mp (Nat.lt_of_le_of_ne hle hk)
      simp only [greedyScan]
      rw [hfail (K + 1) (Nat.lt_succ_of_le hle') (Nat.le_refl _)]
      exact ih hle' (fun k h1 h2 => hfail k h1 (Nat.le_succ_of_le h2)) hs

theorem interiorChar_ne_rbracket {old : List Char} (hO : old.all interiorChar = true) :
    old.all (fun c => c != ']') = true :=
  all_of_interior hO _ (fun c hc => by
    have h := (interiorChar_not_mem hc).1
    exact bne_iff_ne.mpr h)

theorem interiorChar_ne_rbrace {old : List Char} (hO : old.all interiorChar = true) :
    old.all (fun c => c != '\x7d') = true :=
  all_of_interior hO _ (fun c hc => by
    have h := (interiorChar_not_mem hc).2.1
    exact bne_iff_ne.mpr h)

theorem tryRet_none_gt (ne : Bool) (between old post : List Char)
    (hB : between.all (fun c => c != '\x7d') = true)
    (hO : old.all interiorChar = true)
    (hP : (post.takeWhile (fun c => c != '\x7d')).all (fun c => c != '_') = true) :
    ∀ k, between.length < k →
      k ≤ ((between ++ retL ++ old ++ ']' :: post).takeWhile
            (fun c => c != '\x7d')).length →
      tryRet ne (between ++ retL ++ old ++ ']' :: post) k = none := by
  intro k hk1 hk2
  have hOld7d := interiorChar_ne_rbrace hO
  have hall : ((between ++ retL) ++ old).all (fun c => c != '\x7d') = true := by
    simp only [List.all_append, hB, hOld7d, Bool.and_true, Bool.true_and]
    decide
  have hrun : (between ++ retL ++ old ++ ']' :: post).takeWhile (fun c => c != '\x7d') =
      ((between ++ retL) ++ old) ++ ']' :: post.takeWhile (fun c => c != '\x7d') := by
    rw [takeWhile_append_all _ hall, List.takeWhile_cons_of_pos (by decide)]
  have hsdrop : (between ++ retL ++ old ++ ']' :: post).drop k =
      ((between ++ retL ++ old ++ ']' :: post).takeWhile (fun c => c != '\x7d')).drop k ++
        (between ++ retL ++ old ++ ']' :: post).dropWhile (fun c => c != '\x7d') := by
    conv_lhs =>
      rw [(List.takeWhile_append_dropWhile (fun c => c != '\x7d')
        (between ++ retL ++ old ++ ']' :: post)).symm]
    exact List.drop_append_of_le_length hk2
  have hdrop1 : ((between ++ retL ++ old ++ ']' :: post).takeWhile
        (fun c => c != '\x7d')).drop (between.length + 1) =
      retL.drop 1 ++ (old ++ ']' :: post.takeWhile (fun c => c != '\x7d')) := by
    rw [hrun]
    have hassoc : ((between ++ retL) ++ old) ++ ']' :: post.takeWhile (fun c => c != '\x7d') =
        between ++ (retL ++ (old ++ ']' :: post.takeWhile (fun c => c != '\x7d'))) := by
      simp [List.append_assoc]
    rw [hassoc, List.drop_append 1, List.drop_append_of_le_length (by decide)]
  have hhead : ∀ c, ((between ++ retL ++ old ++ ']' :: post).drop k).head? = some c →
      c ≠ '_' := by
    intro c hc
    rw [hsdrop] at hc
    cases hrd : ((between ++ retL ++ old ++ ']' :: post).takeWhile
        (fun c => c != '\x7d')).drop k with
    | nil =>
      rw [hrd, List.nil_append] at hc
      have hfc := head?_dropWhile_false _ hc
      have hcc : c = '\x7d' := by simpa using hfc
      subst hcc
      decide
    | cons d l' =>
      rw [hrd] at hc
      have hdc : d = c := by simpa using hc
      subst hdc
      have hd : d ∈ ((between ++ retL ++ old ++ ']' :: post).takeWhile
          (fun c => c != '\x7d')).drop k := by
        rw [hrd]
        simp
      have hsub := List.drop_subset (k - (between.length + 1))
        (((between ++ retL ++ old ++ ']' :: post).takeWhile
          (fun c => c != '\x7d')).drop (between.length + 1))
      have he : ((between ++ retL ++ old ++ ']' :: post).takeWhile
            (fun c => c != '\x7d')).drop k =
          (((between ++ retL ++ old ++ ']' :: post).takeWhile
            (fun c => c != '\x7d')).drop (between.length + 1)).drop
              (k - (between.length + 1)) := by
        rw [List.drop_drop]
        congr 1
        omega
      rw [he] at hd
      have hd2 := hsub hd
      rw [hdrop1] at hd2
      rcases List.mem_append.mp hd2 with hmem | hmem
      · exact (show ∀ x ∈ retL.drop 1, x ≠ '_' by decide) d hmem
      · rcases List.mem_append.mp hmem with hmem2 | hmem2
        · have := List.all_eq_true.mp hO d hmem2
          exact (interiorChar_not_mem this).2.2.1
        · rcases List.mem_cons.mp hmem2 with heq | hmem3
          · subst heq
            decide
          · have := List.all_eq_true.mp hP d hmem3
            simpa using this
  unfold tryRet
  rw [retMatch_none_of_head ne hhead]

theorem bodyMatch_block (ne : Bool) (between old post : List Char)
    (hB : between.all (fun c => c != '\x7d') = true)
    (hO : old.all interiorChar = true)
    (hne : ne = true → old ≠ [])
    (hP : (post.takeWhile (fun c => c != '\x7d')).all (fun c => c != '_') = true) :
    bodyMatch ne (between ++ retL ++ old ++ ']' :: post) =
      some (between ++ retL, old, post) := by
  have hOld7d := interiorChar_ne_rbrace hO
  have hall : ((between ++ retL) ++ old).all (fun c => c != '\x7d') = true := by
    simp only [List.all_append, hB, hOld7d, Bool.and_true, Bool.true_and]
    decide
  have hrun : (between ++ retL ++ old ++ ']' :: post).takeWhile (fun c => c != '\x7d') =
      ((between ++ retL) ++ old) ++ ']' :: post.takeWhile (fun c => c != '\x7d') := by
    rw [takeWhile_append_all _ hall, List.takeWhile_cons_of_pos (by decide)]
  have hlen : between.length ≤
      ((between ++ retL ++ old ++ ']' :: post).takeWhile (fun c => c != '\x7d')).length := by
    rw [hrun]
    simp only [List.length_append, List.length_cons]
    omega
  unfold bodyMatch
  refine greedyScan_hit ne _ between.length _ hlen
    (tryRet_none_gt ne between old post hB hO hP) ?_
  unfold tryRet
  have hassoc : between ++ retL ++ old ++ ']' :: post =
      between ++ (retL ++ (old ++ ']' :: post)) := by
    simp [List.append_assoc]
  have hdropB : (between ++ retL ++ old ++ ']' :: post).drop between.length =
      retL ++ (old ++ ']' :: post) := by
    rw [hassoc]
    exact List.drop_left between _
  have htakeB : (between ++ retL ++ old ++ ']' :: post).take between.length = between := by
    rw [hassoc]
    exact List.take_left between _
  rw [hdropB, retMatch_eval ne old post (interiorChar_ne_rbracket hO) hne]
  simp only []
  rw [htakeB]

/-- `matchAt` at the start of a well-formed block succeeds and captures
exactly the canonical pieces. -/
theorem matchAt_block (role : String) (ne : Bool) (between old post : List Char)
    (hB : between.all (fun c => c != '\x7d') = true)
    (hO : old.all interiorChar = true)
    (hne : ne = true → old ≠ [])
    (hP : (post.takeWhile (fun c => c != '\x7d')).all (fun c => c != '_') = true) :
    matchAt role ne (guardText role ++ (between ++ retL ++ old ++ ']' :: post)) =
      some (guardText role ++ (between ++ retL), old, post) := by
  unfold matchAt
  rw [guardMatch_self]
  simp only []
  rw [bodyMatch_block ne between old post hB hO hne hP]

/-! ### Well-formed documents -/

/-- Every occurrence of `isEqualTo` in `D` sits inside a canonically
spaced guard `if (_type isEqualTo 'ROLE') then \x7b` whose role code is
alphanumeric, and the guards strictly before position `preLen` carry a
role different from `R`.  This is the shape of `whitelist.sqf`: the
marker word appears exactly in the role guards. -/
def GuardAligned (R : String) (preLen : Nat) (D : List Char) : Prop :=
  ∀ X Y, D = X ++ isoL ++ Y →
    ∃ Xp Rp Yp, X = Xp ++ pre10 ∧ Y = roleTailL Rp ++ Yp ∧ Rp.all roleChar = true ∧
      (Xp.length < preLen → Rp ≠ R.data)

/-- `D` is a well-formed whitelist document for role `R`: it decomposes
into a prefix, the canonical guard of `R`, a block body free of closing
braces, the canonical `_return = [`, a bracket interior made of digits,
quotes, commas and whitespace, and the rest of the document; the first
closing-brace run after the interior contains no underscore (no decoy
`_return` between the interior and the end of the block); and all
`isEqualTo` occurrences are guard-aligned, those before the `R` block
carrying a different role. -/
def WfAt (R : String) (pre between old post D : List Char) : Prop :=
  D = pre ++ guardText R ++ between ++ retL ++ old ++ ']' :: post ∧
  R.data.all roleChar = true ∧
  between.all (fun c => c != '\x7d') = true ∧
  old.all interiorChar = true ∧
  (post.takeWhile (fun c => c != '\x7d')).all (fun c => c != '_') = true ∧
  GuardAligned R pre.length D

theorem matchAt_none_early {R : String} {D : List Char} {preLen : Nat}
    (hG : GuardAligned R preLen D) (hR : R.data.all roleChar = true) (ne : Bool)
    {j : Nat} (hj : j < preLen) (hjD : j ≤ D.length) :
    matchAt R ne (D.drop j) = none := by
  cases hm : matchAt R ne (D.drop j) with
  | none => rfl
  | some v =>
    exfalso
    unfold matchAt at hm
    rcases hgg : guardMatch R (D.drop j) with - | ⟨g, r⟩
    · rw [hgg] at hm
      simp at hm
    have hg : guardMatch R (D.drop j) = some (g, r) := hgg
    obtain ⟨w, r2, hLw, hsplit, hgm3⟩ := guardMatch_decomp hg
    have hD : D = (D.take j ++ w) ++ isoL ++ r2 := by
      conv_lhs => rw [← List.take_append_drop j D]
      rw [hsplit]
      simp [List.append_assoc]
    obtain ⟨Xp, Rp, Yp, hX, hY, hRp, hcond⟩ := hG _ _ hD
    obtain ⟨hXX, hww⟩ := LHead_align hLw LHead_pre10 hX
    have hXplen : Xp.length = j := by
      rw [← hXX]
      simp only [List.length_take]
      omega
    have hRne : Rp ≠ R.data := hcond (by omega)
    have hdj : D.drop j = pre10 ++ isoL ++ (roleTailL Rp ++ Yp) := by
      rw [hsplit, hww, hY]
    rw [hdj] at hg
    rw [guardMatch_mismatch R Yp (List.all_eq_true.mp hRp)
      (List.all_eq_true.mp hR) (fun he => hRne he.symm)] at hg
    simp at hg

theorem findMatchAux_cons_none {R : String} {ne : Bool} {acc : List Char} {c : Char}
    {s : List Char} (h : matchAt R ne (c :: s) = none) :
    findMatchAux R ne acc (c :: s) = findMatchAux R ne (acc ++ [c]) s := by
  conv_lhs => rw [findMatchAux]
  rw [h]

theorem matchAt_nil (R : String) (ne : Bool) : matchAt R ne [] = none := by
  unfold matchAt guardMatch gm1
  simp [eatLit]

theorem findMatchAux_some {R : String} {ne : Bool} {acc s g i r : List Char}
    (h : matchAt R ne s = some (g, i, r)) :
    findMatchAux R ne acc s = some (acc, g, i, r) := by
  cases s with
  | nil => rw [matchAt_nil] at h; simp at h
  | cons c s' =>
    conv_lhs => rw [findMatchAux]
    rw [h]

theorem findMatchAux_skip (R : String) (ne : Bool) :
    ∀ (A acc B : List Char),
      (∀ j, j < A.length → matchAt R ne ((A ++ B).drop j) = none) →
      findMatchAux R ne acc (A ++ B) = findMatchAux R ne (acc ++ A) B
  | [], acc, B, _ => by simp
  | c :: A', acc, B, hfail => by
    have h0 : matchAt R ne (c :: (A' ++ B)) = none := by
      have := hfail 0 (by simp)
      simpa using this
    rw [List.cons_append, findMatchAux_cons_none h0]
    rw [findMatchAux_skip R ne A' (acc ++ [c]) B
      (fun j hj => by
        have := hfail (j + 1) (by simpa using Nat.succ_lt_succ hj)
        simpa [List.cons_append] using this)]
    simp

/-- The central matcher theorem: on a well-formed document the first
match of the pattern for `R` is exactly the `R` block, decomposed into
its canonical pieces. -/
theorem findMatch_wf {R : String} {D pre between old post : List Char} (ne : Bool)
    (h : WfAt R pre between old post D) (hne : ne = true → old ≠ []) :
    findMatch R ne D = some (pre, guardText R ++ (between ++ retL), old, post) := by
  obtain ⟨hD, hR, hB, hO, hP, hG⟩ := h
  have hrest : D = pre ++ (guardText R ++ (between ++ retL ++ old ++ ']' :: post)) := by
    rw [hD]
    simp [List.append_assoc]
  have hlenD : pre.length ≤ D.length := by
    rw [hrest]
    simp only [List.length_append]
    omega
  unfold findMatch
  rw [hrest]
  rw [findMatchAux_skip R ne pre [] _
    (fun j hj => by
      rw [← hrest]
      exact matchAt_none_early hG hR ne hj (by omega))]
  rw [findMatchAux_some (matchAt_block R ne between old post hB hO hne hP)]
  simp

/-! ### The extraction of a freshly serialized identifier list -/

theorem splitComma_no_comma : ∀ {l : List Char}, ',' ∉ l → splitComma l = [l]
  | [], _ => rfl
  | c :: r, h => by
    have hc : ¬(c = ',') := fun hc => h (by simp [hc])
    have hr : ',' ∉ r := fun hr => h (by simp [hr])
    unfold splitComma
    rw [if_neg hc, splitComma_no_comma hr]

theorem splitComma_append : ∀ {A : List Char} (B : List Char), ',' ∉ A →
    splitComma (A ++ ',' :: B) = A :: splitComma B
  | [], B, _ => by simp [splitComma]
  | c :: A', B, h => by
    have hc : ¬(c = ',') := fun hc => h (by simp [hc])
    have hA : ',' ∉ A' := fun hA => h (by simp [hA])
    rw [List.cons_append]
    conv_lhs => rw [splitComma]
    rw [if_neg hc, splitComma_append B hA]

theorem digit_not_comma {u : List Char} (hu : u.all Char.isDigit = true) : ',' ∉ u := by
  intro hmem
  have := List.all_eq_true.mp hu ',' hmem
  simp at this

theorem all_isWS_reverse {l : List Char} (h : l.all isWS = true) :
    l.reverse.all isWS = true := by
  rw [List.all_eq_true] at h ⊢
  intro c hc
  exact h c (List.mem_reverse.mp hc)

theorem cleanTok_quoted (u a b : List Char) (hu : u.all Char.isDigit = true)
    (ha : a.all isWS = true) (hb : b.all isWS = true) :
    cleanTok (a ++ '\'' :: (u ++ '\'' :: b)) = u := by
  unfold cleanTok trim
  rw [dropWhile_append_all _ ha, List.dropWhile_cons_of_neg (by decide)]
  have h1 : ('\'' :: (u ++ '\'' :: b)).reverse = (b.reverse ++ ['\'']) ++ (u.reverse ++ ['\'']) := by
    simp [List.reverse_cons, List.reverse_append, List.append_assoc]
  rw [h1, List.append_assoc, dropWhile_append_all _ (all_isWS_reverse hb),
    List.singleton_append, List.dropWhile_cons_of_neg (by decide)]
  rw [show ('\'' :: (u.reverse ++ ['\''])).reverse = ('\'' :: u) ++ ['\''] by simp]
  rw [show ('\'' :: u) ++ ['\''] = '\'' :: (u ++ ['\'']) by simp]
  rw [List.filter_cons_of_neg (by decide), List.filter_append,
    List.filter_cons_of_neg (by decide)]
  have : u.filter (fun c => c != '\'' && c != '"') = u := by
    rw [List.filter_eq_self]
    intro c hc
    have hd := List.all_eq_true.mp hu c hc
    revert hd
    have : ∀ x : Char, x.isDigit = true → (x != '\'' && x != '"') = true := by
      intro x hx
      have h1 : x ≠ '\'' := by rintro rfl; simp at hx
      have h2 : x ≠ '"' := by rintro rfl; simp at hx
      simp [h1, h2]
    exact this c
  rw [this]
  simp

theorem isDigitTok_of {u : List Char} (hne : u ≠ []) (hu : u.all Char.isDigit = true) :
    isDigitTok u = true := by
  unfold isDigitTok
  cases u with
  | nil => exact absurd rfl hne
  | cons c l => simpa using hu

theorem fmtUid_no_comma {u : List Char} (hu : u.all Char.isDigit = true) :
    ',' ∉ fmtUid u := by
  intro hmem
  simp only [fmtUid, List.mem_cons, List.mem_append, List.mem_singleton] at hmem
  rcases hmem with h | h | h | h
  · exact absurd h (by decide)
  · exact absurd h (by decide)
  · exact absurd h (by decide)
  · rcases h with h | h
    · exact digit_not_comma hu h
    · exact absurd h (by decide)

theorem extractUids_join :
    ∀ (L : List (List Char)) (u : List Char), u ≠ [] → u.all Char.isDigit = true →
      (∀ v ∈ L, v ≠ [] ∧ v.all Char.isDigit = true) →
      extractUids ('\n' :: (joinUids (u :: L) ++ ['\n', '\t'])) = u :: L
  | [], u, hne, hu, _ => by
    unfold joinUids extractUids
    have hnc : ',' ∉ '\n' :: (fmtUid u ++ ['\n', '\t']) := by
      intro hmem
      simp only [List.mem_cons, List.mem_append, List.mem_singleton] at hmem
      rcases hmem with h | h | h
      · exact absurd h (by decide)
      · exact fmtUid_no_comma hu h
      · rcases h with h | h
        · exact absurd h (by decide)
        · exact absurd h (by decide)
    rw [splitComma_no_comma hnc]
    have hshape : '\n' :: (fmtUid u ++ ['\n', '\t']) =
        ['\n', '\t', '\t'] ++ '\'' :: (u ++ '\'' :: ['\n', '\t']) := by
      simp [fmtUid]
    simp only [List.map_cons, List.map_nil, hshape]
    rw [cleanTok_quoted u _ _ hu (by decide) (by decide)]
    simp [List.filter_cons, isDigitTok_of hne hu]
  | v :: L', u, hne, hu, hL => by
    have hv := hL v (by simp)
    have hL' : ∀ w ∈ L', w ≠ [] ∧ w.all Char.isDigit = true :=
      fun w hw => hL w (by simp [hw])
    have hstep : '\n' :: (joinUids (u :: v :: L') ++ ['\n', '\t']) =
        ('\n' :: fmtUid u) ++ ',' :: ('\n' :: (joinUids (v :: L') ++ ['\n', '\t'])) := by
      show '\n' :: ((fmtUid u ++ ',' :: '\n' :: joinUids (v :: L')) ++ ['\n', '\t']) = _
      simp [List.append_assoc]
    rw [hstep]
    unfold extractUids
    have hnc : ',' ∉ '\n' :: fmtUid u := by
      intro hmem
      rcases List.mem_cons.mp hmem with h | h
      · exact absurd h (by decide)
      · exact fmtUid_no_comma hu h
    rw [splitComma_append _ hnc]
    have hrec := extractUids_join L' v hv.1 hv.2 hL'
    unfold extractUids at hrec
    simp only [List.map_cons, List.filter_cons]
    have hclean : cleanTok ('\n' :: fmtUid u) = u := by
      have hsh : '\n' :: fmtUid u = ['\n', '\t', '\t'] ++ '\'' :: (u ++ '\'' :: []) := by
        simp [fmtUid]
      rw [hsh]
      exact cleanTok_quoted u _ _ hu (by decide) (by decide)
    rw [hclean, isDigitTok_of hne hu]
    simp [hrec]

theorem extractUids_replacement (L : List (List Char))
    (hL : ∀ u ∈ L, u ≠ [] ∧ u.all Char.isDigit = true) :
    extractUids (replacementFor L) = L := by
  cases L with
  | nil => decide
  | cons u L' =>
    have hu := hL u (by simp)
    unfold replacementFor
    rw [if_neg (by simp)]
    exact extractUids_join L' u hu.1 hu.2 (fun v hv => hL v (by simp [hv]))

/-! ### Stability of guard alignment under interior replacement -/

theorem mem_of_getLast?_eq {l : List Char} {c : Char} (h : l.getLast? = some c) : c ∈ l := by
  have hmem : c ∈ l.getLast? := by rw [Option.mem_def]; exact h
  obtain ⟨hne, heq⟩ := List.mem_getLast?_eq_getLast hmem
  rw [heq]
  exact List.getLast_mem hne

theorem roleTail_getLast (Rp : List Char) : (roleTailL Rp).getLast? = some '\x7b' := by
  have hsh : roleTailL Rp = ([' ', '\''] ++ Rp) ++ rtClose := by
    simp [roleTailL, List.append_assoc]
  rw [hsh, List.getLast?_append_of_ne_nil _ (by simp [rtClose])]
  decide

theorem lbrace_mem_roleTail (Rp : List Char) : '\x7b' ∈ roleTailL Rp := by
  simp [roleTailL, rtClose]

theorem rbracket_not_roleTail {Rp : List Char} (h : Rp.all roleChar = true) :
    ']' ∉ roleTailL Rp := by
  intro hmem
  simp only [roleTailL, rtClose, List.mem_cons, List.mem_append, List.mem_singleton] at hmem
  rcases hmem with h1 | h1 | h1
  · exact absurd h1 (by decide)
  · exact absurd h1 (by decide)
  · rcases h1 with h1 | h1
    · have := List.all_eq_true.mp h ']' h1
      simp [roleChar] at this
    · rcases h1 with h1 | h1 | h1 | h1 | h1 | h1 | h1 | h1 | h1 <;> exact absurd h1 (by decide)

/-- Replacing the bracket interior of the target block (both old and new
interiors having the interior character set, the new one starting with a
newline) preserves guard alignment.  `P` is the whole document prefix up
to and including the opening bracket. -/
theorem guardAligned_swap {R : String} {P old rep post : List Char} {preLen : Nat}
    (hG : GuardAligned R preLen (P ++ (old ++ ']' :: post)))
    (hO : old.all interiorChar = true)
    (hrep : rep.all interiorChar = true)
    (hrephead : ∃ t, rep = '\n' :: t)
    (hpre : preLen ≤ P.length) :
    GuardAligned R preLen (P ++ (rep ++ ']' :: post)) := by
  intro X Y hXY
  obtain ⟨t0, hrh⟩ := hrephead
  have hXY2 : X ++ (isoL ++ Y) = P ++ (rep ++ ']' :: post) := by
    rw [← List.append_assoc]
    exact hXY.symm
  rcases List.append_eq_append_iff.mp hXY2 with ⟨m, hm1, hm2⟩ | ⟨m, hm1, hm2⟩
  · -- case L : P = X ++ m, isoL ++ Y = m ++ (rep ++ ']' :: post)
    rcases List.append_eq_append_iff.mp hm2 with ⟨a, ha1, ha2⟩ | ⟨a, ha1, ha2⟩
    · -- case L1 : m = isoL ++ a, Y = a ++ (rep ++ ']' :: post)
      have hD : P ++ (old ++ ']' :: post) =
          X ++ isoL ++ (a ++ (old ++ ']' :: post)) := by
        rw [hm1, ha1]
        simp [List.append_assoc]
      obtain ⟨Xp, Rp, Yp, hXp, hYp, hRp, hcond⟩ := hG _ _ hD
      rcases List.append_eq_append_iff.mp hYp with ⟨w, hw1, hw2⟩ | ⟨w, hw1, hw2⟩
      · -- roleTailL Rp = a ++ w, old ++ ']'::post = w ++ Yp
        rcases w with - | ⟨c0, w0⟩
        · -- w = [] : a is the whole guard tail
          rw [List.append_nil] at hw1
          refine ⟨Xp, Rp, rep ++ ']' :: post, hXp, ?_, hRp, hcond⟩
          rw [ha2, ← hw1]
        · -- w nonempty : the guard tail would stretch into the interior
          exfalso
          have hlb : '\x7b' ∈ c0 :: w0 := by
            have hg1 : (roleTailL Rp).getLast? = some '\x7b' := roleTail_getLast Rp
            rw [hw1, List.getLast?_append_cons] at hg1
            exact mem_of_getLast?_eq hg1
          rcases List.append_eq_append_iff.mp hw2 with ⟨v, hv1, hv2⟩ | ⟨v, hv1, hv2⟩
          · -- c0 :: w0 = old ++ v, ']'::post = v ++ Yp
            rcases v with - | ⟨d0, v0⟩
            · rw [List.append_nil] at hv1
              have hin : '\x7b' ∈ old := by rw [← hv1]; exact hlb
              exact absurd (List.all_eq_true.mp hO _ hin) (by decide)
            · rw [List.cons_append] at hv2
              injection hv2 with hd0 hrest
              subst hd0
              have hmem : ']' ∈ c0 :: w0 := by
                rw [hv1]
                exact List.mem_append.mpr (Or.inr (by simp))
              have hrt : ']' ∈ roleTailL Rp := by
                rw [hw1]
                exact List.mem_append.mpr (Or.inr hmem)
              exact rbracket_not_roleTail hRp hrt
          · -- old = (c0 :: w0) ++ v
            have hin : '\x7b' ∈ old := by
              rw [hv1]
              exact List.mem_append.mpr (Or.inl hlb)
            exact absurd (List.all_eq_true.mp hO _ hin) (by decide)
      · -- a = roleTailL Rp ++ w
        refine ⟨Xp, Rp, w ++ (rep ++ ']' :: post), hXp, ?_, hRp, hcond⟩
        rw [ha2, hw1]
        simp [List.append_assoc]
    · -- case L2 : isoL = m ++ a, rep ++ ']'::post = a ++ Y
      rcases a with - | ⟨d, a0⟩
      · -- a = [] : the marker word ends exactly where P ends
        exfalso
        rw [List.append_nil] at ha1
        have hD : P ++ (old ++ ']' :: post) = X ++ isoL ++ (old ++ ']' :: post) := by
          rw [hm1, ← ha1]
        obtain ⟨Xp, Rp, Yp, hXp, hYp, hRp, -⟩ := hG _ _ hD
        rcases List.append_eq_append_iff.mp hYp with ⟨w, hw1, hw2⟩ | ⟨w, hw1, hw2⟩
        · -- roleTailL Rp = old ++ w, ']'::post = w ++ Yp
          rcases w with - | ⟨d0, w0⟩
          · rw [List.append_nil] at hw1
            have hin : '\x7b' ∈ old := by rw [← hw1]; exact lbrace_mem_roleTail Rp
            exact absurd (List.all_eq_true.mp hO _ hin) (by decide)
          · rw [List.cons_append] at hw2
            injection hw2 with hd0 hrest
            subst hd0
            have hrt : ']' ∈ roleTailL Rp := by
              rw [hw1]
              exact List.mem_append.mpr (Or.inr (by simp))
            exact rbracket_not_roleTail hRp hrt
        · -- old = roleTailL Rp ++ w
          have hin : '\x7b' ∈ old := by
            rw [hw1]
            exact List.mem_append.mpr (Or.inl (lbrace_mem_roleTail Rp))
          exact absurd (List.all_eq_true.mp hO _ hin) (by decide)
      · -- a = d :: a0 : the marker word would cross into the new interior
        exfalso
        rw [hrh, List.cons_append, List.cons_append] at ha2
        injection ha2 with hd hrest
        have hin : '\n' ∈ isoL := by
          rw [ha1, ← hd]
          exact List.mem_append.mpr (Or.inr (by simp))
        exact absurd hin (by decide)
  · -- case R : X = P ++ m, rep ++ ']'::post = m ++ (isoL ++ Y)
    rcases List.append_eq_append_iff.mp hm2 with ⟨a, ha1, ha2⟩ | ⟨a, ha1, ha2⟩
    · -- case R1 : m = rep ++ a, ']'::post = a ++ (isoL ++ Y)
      rcases a with - | ⟨d, a0⟩
      · -- ']'::post = isoL ++ Y : impossible heads
        exfalso
        rw [List.nil_append, show isoL = 'i' :: ['s', 'E', 'q', 'u', 'a', 'l', 'T', 'o'] from rfl,
          List.cons_append] at ha2
        injection ha2 with hd hrest
        exact absurd hd (by decide)
      · rw [List.cons_append] at ha2
        injection ha2 with hd hpost
        subst hd
        -- post = a0 ++ (isoL ++ Y) : occurrence inside post
        have hD : P ++ (old ++ ']' :: post) =
            (P ++ (old ++ ']' :: a0)) ++ isoL ++ Y := by
          rw [hpost]
          simp [List.append_assoc]
        obtain ⟨Xp, Rp, Yp, hXp, hYp, hRp, -⟩ := hG _ _ hD
        have hXp2 : (P ++ old) ++ (']' :: a0) = Xp ++ pre10 := by
          rw [← hXp]
          simp [List.append_assoc]
        rcases List.append_eq_append_iff.mp hXp2 with ⟨w, hw1, hw2⟩ | ⟨w, hw1, hw2⟩
        · -- Xp = (P ++ old) ++ w, ']' :: a0 = w ++ pre10
          refine ⟨(P ++ rep) ++ w, Rp, Yp, ?_, hYp, hRp, ?_⟩
          · rw [hm1, ha1, hw2]
            simp [List.append_assoc]
          · intro hlt
            exfalso
            simp only [List.length_append] at hlt
            omega
        · -- pre10 = w ++ (']' :: a0) : the guard head would contain ']'
          exfalso
          have hin : ']' ∈ pre10 := by
            rw [hw2]
            exact List.mem_append.mpr (Or.inr (by simp))
          exact absurd hin (by decide)
    · -- case R2 : rep = m ++ a, isoL ++ Y = a ++ (']' :: post)
      exfalso
      rcases a with - | ⟨d, a0⟩
      · rw [List.nil_append] at ha2
        rw [show isoL = 'i' :: ['s', 'E', 'q', 'u', 'a', 'l', 'T', 'o'] from rfl,
          List.cons_append] at ha2
        injection ha2 with hd hrest
        exact absurd hd (by decide)
      · rw [show isoL = 'i' :: ['s', 'E', 'q', 'u', 'a', 'l', 'T', 'o'] from rfl,
          List.cons_append, List.cons_append] at ha2
        injection ha2 with hd hrest
        have hin : 'i' ∈ rep := by
          rw [ha1, hd]
          exact List.mem_append.mpr (Or.inr (by simp))
        exact absurd (List.all_eq_true.mp hrep _ hin) (by decide)

/-! ### The serialized interior is well-formed -/

theorem digit_interior {c : Char} (h : c.isDigit = true) : interiorChar c = true := by
  simp [interiorChar, h]

theorem all_digit_interior {u : List Char} (h : u.all Char.isDigit = true) :
    u.all interiorChar = true := by
  rw [List.all_eq_true] at h ⊢
  exact fun c hc => digit_interior (h c hc)

theorem fmtUid_all_interior {u : List Char} (h : u.all Char.isDigit = true) :
    (fmtUid u).all interiorChar = true := by
  simp only [fmtUid, List.all_cons, List.all_append, all_digit_interior h]
  decide

theorem joinUids_all_interior :
    ∀ L : List (List Char), (∀ u ∈ L, u.all Char.isDigit = true) →
      (joinUids L).all interiorChar = true
  | [], _ => by simp [joinUids]
  | [u], h => by
    rw [show joinUids [u] = fmtUid u from rfl]
    exact fmtUid_all_interior (h u (by simp))
  | u :: v :: L, h => by
    rw [show joinUids (u :: v :: L) = fmtUid u ++ ',' :: '\n' :: joinUids (v :: L) from rfl]
    rw [List.all_append, fmtUid_all_interior (h u (by simp))]
    simp only [List.all_cons]
    rw [joinUids_all_interior (v :: L) (fun w hw => h w (by simp [hw]))]
    decide

theorem replacementFor_all_interior (L : List (List Char))
    (hL : ∀ u ∈ L, u.all Char.isDigit = true) :
    (replacementFor L).all interiorChar = true := by
  unfold replacementFor
  by_cases hc : L.isEmpty
  · rw [if_pos hc]
    decide
  · rw [if_neg hc]
    simp only [List.all_cons, List.all_append, joinUids_all_interior L hL]
    decide

theorem replacementFor_head (L : List (List Char)) :
    ∃ t, replacementFor L = '\n' :: t := by
  unfold replacementFor
  by_cases hc : L.isEmpty
  · rw [if_pos hc]
    exact ⟨['\t'], rfl⟩
  · rw [if_neg hc]
    exact ⟨_, rfl⟩

theorem replacementFor_ne_nil (L : List (List Char)) : replacementFor L ≠ [] := by
  obtain ⟨t, ht⟩ := replacementFor_head L
  rw [ht]
  simp

/-! ### Serialization and parsing on well-formed documents -/

theorem update_wf {R : String} {D pre between old post : List Char}
    (h : WfAt R pre between old post D) (uids : List (List Char)) :
    updateWhitelistInContent D R uids =
      pre ++ (guardText R ++ (between ++ retL)) ++ (replacementFor uids ++ ']' :: post) := by
  unfold updateWhitelistInContent
  rw [show findMatch R false D = some (pre, guardText R ++ (between ++ retL), old, post) from
    findMatch_wf false h (by simp)]
  simp [List.append_assoc]

theorem wfAt_update {R : String} {D pre between old post : List Char}
    (h : WfAt R pre between old post D) (L : List (List Char))
    (hL : ∀ u ∈ L, u.all Char.isDigit = true) :
    WfAt R pre between (replacementFor L) post
      (pre ++ guardText R ++ between ++ retL ++ replacementFor L ++ ']' :: post) := by
  obtain ⟨hD, hR, hB, hO, hP, hG⟩ := h
  refine ⟨rfl, hR, hB, replacementFor_all_interior L hL, hP, ?_⟩
  have hg2 : GuardAligned R pre.length
      ((pre ++ guardText R ++ between ++ retL) ++ (old ++ ']' :: post)) := by
    have he : (pre ++ guardText R ++ between ++ retL) ++ (old ++ ']' :: post) = D := by
      rw [hD]
      simp [List.append_assoc]
    rw [he]
    exact hG
  have hswap := guardAligned_swap hg2 hO (replacementFor_all_interior L hL)
    (replacementFor_head L) (by simp only [List.length_append]; omega)
  have he2 : (pre ++ guardText R ++ between ++ retL) ++ (replacementFor L ++ ']' :: post) =
      pre ++ guardText R ++ between ++ retL ++ replacementFor L ++ ']' :: post := by
    simp [List.append_assoc]
  rw [he2] at hswap
  exact hswap

/-- The codec round trip on a well-formed document: serializing a list of
digit identifiers into the `R` block and parsing the result returns
exactly that list. -/
theorem parse_update {R : String} {D pre between old post : List Char}
    (h : WfAt R pre between old post D) (L : List (List Char))
    (hL : ∀ u ∈ L, u ≠ [] ∧ u.all Char.isDigit = true) :
    parseRole (updateWhitelistInContent D R L) R = L := by
  rw [update_wf h L]
  have hsh : pre ++ (guardText R ++ (between ++ retL)) ++ (replacementFor L ++ ']' :: post) =
      pre ++ guardText R ++ between ++ retL ++ replacementFor L ++ ']' :: post := by
    simp [List.append_assoc]
  rw [hsh]
  unfold parseRole
  rw [show findMatch R true
      (pre ++ guardText R ++ between ++ retL ++ replacementFor L ++ ']' :: post) =
      some (pre, guardText R ++ (between ++ retL), replacementFor L, post) from
    findMatch_wf true (wfAt_update h L (fun u hu => (hL u hu).2))
      (fun _ => replacementFor_ne_nil L)]
  exact extractUids_replacement L hL

theorem lookup_map_self {β : Type} (f : String → β) :
    ∀ (l : List String) {R : String}, R ∈ l →
      (l.map (fun r => (r, f r))).lookup R = some (f R)
  | [], R, h => absurd h (by simp)
  | a :: l, R, h => by
    by_cases hra : R = a
    · subst hra
      simp [List.lookup]
    · have : R ∈ l := by
        rcases List.mem_cons.mp h with h1 | h1
        · exact absurd h1 hra
        · exact h1
      simp only [List.map_cons, List.lookup]
      rw [show (R == a) = false from beq_eq_false_iff_ne.mpr hra]
      exact lookup_map_self f l this

theorem lookup_parseContent (content : List Char) {R : String} (hR : R ∈ validRoles) :
    (parseContent content).lookup R = some (parseRole content R) :=
  lookup_map_self (parseRole content) validRoles hR

theorem lookup_map_self_not {β : Type} (f : String → β) :
    ∀ (l : List String) {R : String}, R ∉ l →
      (l.map (fun r => (r, f r))).lookup R = none
  | [], _, _ => by simp [List.lookup]
  | a :: l, R, h => by
    have hne : R ≠ a := fun he => h (by simp [he])
    simp only [List.map_cons, List.lookup]
    rw [show (R == a) = false from beq_eq_false_iff_ne.mpr hne]
    exact lookup_map_self_not f l (fun hm => h (by simp [hm]))

theorem lookup_parseContent_not (content : List Char) {R : String} (hR : R ∉ validRoles) :
    (parseContent content).lookup R = none :=
  lookup_map_self_not (parseRole content) validRoles hR

theorem parseRole_digits (content : List Char) (R : String) :
    ∀ t ∈ parseRole content R, t ≠ [] ∧ t.all Char.isDigit = true := by
  intro t ht
  unfold parseRole at ht
  rcases hm : findMatch R true content with - | ⟨p1, p2, i, p4⟩
  · rw [hm] at ht
    simp at ht
  · rw [hm] at ht
    simp only [] at ht
    unfold extractUids at ht
    have := List.of_mem_filter ht
    unfold isDigitTok at this
    constructor
    · intro hnil
      rw [hnil] at this
      simp at this
    · simp only [Bool.and_eq_true] at this
      exact this.2

/-! ### A decidable check for guard alignment -/

/-- The role code found just after position `p` (the putative start of an
`isEqualTo` occurrence): skip the marker word, the space and the quote,
then read up to the closing quote. -/
def roleAt (D : List Char) (p : Nat) : List Char :=
  (D.drop (p + 11)).takeWhile (fun c => c != '\'')

def alignedAtB (R : String) (preLen : Nat) (D : List Char) (p : Nat) : Bool :=
  decide (10 ≤ p) &&
  ((pre10 ++ isoL).isPrefixOf (D.drop (p - 10))) &&
  ((roleTailL (roleAt D p)).isPrefixOf (D.drop (p + 9))) &&
  (roleAt D p).all roleChar &&
  (decide (preLen + 10 ≤ p) || decide (roleAt D p ≠ R.data))

/-- Positional scan deciding `GuardAligned`. -/
def guardAlignedB (R : String) (preLen : Nat) (D : List Char) : Bool :=
  (List.range (D.length + 1)).all fun p =>
    !(isoL.isPrefixOf (D.drop p)) || alignedAtB R preLen D p

theorem guardAligned_of_b {R : String} {preLen : Nat} {D : List Char}
    (h : guardAlignedB R preLen D = true) : GuardAligned R preLen D := by
  intro X Y hXY
  have hplen : X.length ≤ D.length := by
    rw [hXY]
    simp only [List.length_append]
    omega
  have hdropX : D.drop X.length = isoL ++ Y := by
    rw [hXY, List.append_assoc]
    exact List.drop_left X _
  have hmem : X.length ∈ List.range (D.length + 1) := List.mem_range.mpr (by omega)
  have hscan := List.all_eq_true.mp h _ hmem
  have hiso : isoL.isPrefixOf (D.drop X.length) = true := by
    rw [hdropX]
    exact List.isPrefixOf_iff_prefix.mpr ⟨Y, rfl⟩
  rw [hiso] at hscan
  simp only [Bool.not_true, Bool.false_or] at hscan
  unfold alignedAtB at hscan
  simp only [Bool.and_eq_true, decide_eq_true_eq, Bool.or_eq_true] at hscan
  obtain ⟨⟨⟨⟨h10, hpre⟩, htail⟩, hall⟩, hside⟩ := hscan
  obtain ⟨Z, hZ⟩ := List.isPrefixOf_iff_prefix.mp hpre
  -- D = take (p-10) ++ (pre10 ++ isoL) ++ Z
  have hD2 : D.take (X.length - 10) ++ ((pre10 ++ isoL) ++ Z) = X ++ (isoL ++ Y) := by
    rw [hZ, List.take_append_drop, hXY]
    simp [List.append_assoc]
  have hlen2 : (D.take (X.length - 10) ++ pre10).length = X.length := by
    have hp : pre10.length = 10 := rfl
    simp only [List.length_append, List.length_take, hp]
    omega
  have hD3 : (D.take (X.length - 10) ++ pre10) ++ (isoL ++ Z) = X ++ (isoL ++ Y) := by
    rw [← hD2]
    simp [List.append_assoc]
  obtain ⟨hXeq, hYZ⟩ := List.append_inj hD3 hlen2
  have hZY : Z = Y := List.append_cancel_left hYZ
  -- the guard tail
  have hdropt : D.drop (X.length + 9) = Y := by
    have hsh : D = (X ++ isoL) ++ Y := by rw [hXY]
    have hl : (X ++ isoL).length = X.length + 9 := by simp [isoL]
    rw [hsh, ← hl]
    exact List.drop_left _ _
  obtain ⟨Yp, hYp⟩ := List.isPrefixOf_iff_prefix.mp htail
  rw [hdropt] at hYp
  refine ⟨D.take (X.length - 10), roleAt D X.length, Yp, hXeq.symm, hYp.symm, hall, ?_⟩
  intro hlt
  rcases hside with hle | hne
  · exfalso
    have : (D.take (X.length - 10)).length = X.length - 10 := by
      simp only [List.length_take]
      omega
    omega
  · exact hne

/-- A Boolean rendering of `WfAt`, so that well-formedness of a concrete
document can be established by evaluation. -/
def wfAtB (R : String) (pre between old post D : List Char) : Bool :=
  (D == pre ++ guardText R ++ between ++ retL ++ old ++ ']' :: post) &&
  R.data.all roleChar &&
  between.all (fun c => c != '\x7d') &&
  old.all interiorChar &&
  (post.takeWhile (fun c => c != '\x7d')).all (fun c => c != '_') &&
  guardAlignedB R pre.length D

theorem wfAt_of_b {R : String} {pre between old post D : List Char}
    (h : wfAtB R pre between old post D = true) : WfAt R pre between old post D := by
  unfold wfAtB at h
  simp only [Bool.and_eq_true, beq_iff_eq] at h
  obtain ⟨⟨⟨⟨⟨h1, h2⟩, h3⟩, h4⟩, h5⟩, h6⟩ := h
  exact ⟨h1, h2, h3, h4, h5, guardAligned_of_b h6⟩

/-! ### Branch laws of the store operations -/

theorem mem_of_contains_true {α : Type} [BEq α] [LawfulBEq α] {l : List α} {x : α}
    (h : l.contains x = true) : x ∈ l := by
  simpa using h

theorem not_mem_of_contains_false {α : Type} [BEq α] [LawfulBEq α] {l : List α} {x : α}
    (h : l.contains x = false) : x ∉ l := by
  intro hm
  simp [hm] at h

theorem contains_true_of_mem {α : Type} [BEq α] [LawfulBEq α] {l : List α} {x : α}
    (h : x ∈ l) : l.contains x = true := by
  simp [h]

theorem contains_false_of_not_mem {α : Type} [BEq α] [LawfulBEq α] {l : List α} {x : α}
    (h : x ∉ l) : l.contains x = false := by
  simp [h]

theorem addUid_invalid_role {role : String} (h : jsRoleValid role = false)
    (D : List Char) (uid : String) :
    addUid D role uid = (⟨false, invalidRoleMsg role⟩, D) := by
  unfold addUid
  rw [h]
  simp

theorem addUid_invalid_uid {role uid : String} (hr : jsRoleValid role = true)
    (hu : isSteam64 uid = false) (D : List Char) :
    addUid D role uid = (⟨false, invalidUidMsg uid⟩, D) := by
  unfold addUid
  rw [hr, hu]
  simp

theorem addUid_already {D : List Char} {role uid : String} (hr : jsRoleValid role = true)
    (hu : isSteam64 uid = true)
    (hc : (curUids D (upperS role)).contains uid.data = true) :
    addUid D role uid = (⟨false, alreadyMsg uid (upperS role)⟩, D) := by
  unfold addUid
  rw [hr, hu]
  simp [mem_of_contains_true hc]

theorem addUid_new {D : List Char} {role uid : String} (hr : jsRoleValid role = true)
    (hu : isSteam64 uid = true)
    (hc : (curUids D (upperS role)).contains uid.data = false) :
    addUid D role uid = (⟨true, addedMsg uid (upperS role)⟩,
      updateWhitelistInContent D (upperS role) (curUids D (upperS role) ++ [uid.data])) := by
  unfold addUid
  rw [hr, hu]
  simp [not_mem_of_contains_false hc]

theorem removeUid_invalid_role {role : String} (h : jsRoleValid role = false)
    (D : List Char) (uid : String) :
    removeUid D role uid = (⟨false, invalidRoleMsg role⟩, D) := by
  unfold removeUid
  rw [h]
  simp

theorem removeUid_not_in {D : List Char} {role uid : String} (hr : jsRoleValid role = true)
    (hc : (curUids D (upperS role)).contains uid.data = false) :
    removeUid D role uid = (⟨false, notInMsg uid (upperS role)⟩, D) := by
  unfold removeUid
  rw [hr]
  simp [not_mem_of_contains_false hc]

theorem removeUid_hit {D : List Char} {role uid : String} (hr : jsRoleValid role = true)
    (hc : (curUids D (upperS role)).contains uid.data = true) :
    removeUid D role uid = (⟨true, removedMsg uid (upperS role)⟩,
      updateWhitelistInContent D (upperS role)
        ((curUids D (upperS role)).filter (fun u => u != uid.data))) := by
  unfold removeUid
  rw [hr]
  simp [mem_of_contains_true hc]

theorem mem_validRoles_of_js {role : String} (h : jsRoleValid role = true) :
    upperS role ∈ validRoles := by
  unfold jsRoleValid at h
  exact mem_of_contains_true h

theorem curUids_eq_parseRole {D : List Char} {R : String} (h : R ∈ validRoles) :
    curUids D R = parseRole D R := by
  unfold curUids
  rw [lookup_parseContent _ h]
  rfl

theorem isSteam64_spec {uid : String} (h : isSteam64 uid = true) :
    uid.data ≠ [] ∧ uid.data.all Char.isDigit = true ∧ uid.data.length = 17 := by
  unfold isSteam64 at h
  simp only [Bool.and_eq_true, beq_iff_eq] at h
  refine ⟨?_, h.2, h.1⟩
  intro hnil
  rw [hnil] at h
  simp at h

/-! ### Concrete example documents and environments -/

def uidAS : String := "76561198000000001"

def uidBS : String := "76561198000000002"

def uidCS : String := "76561198000000003"

/-- An eighteen-digit legacy identifier. -/
def uidLS : String := "765611980000000004"

def uidA : List Char := uidAS.data

def uidB : List Char := uidBS.data

def uidC : List Char := uidCS.data

def uidL : List Char := uidLS.data

/-- `];\n};\n` — the end of a whitelist block. -/
def blockTail : List Char := [';', '\n', '\x7d', ';', '\n']

/-- One whitelist block in the canonical shape of `whitelist.sqf`. -/
def demoBlock (R : String) (old : List Char) : List Char :=
  guardText R ++ ['\n', '\t'] ++ retL ++ old ++ ']' :: blockTail

def demoHeader : List Char := "// demo whitelist\n_type = param [0];\n".data

def demoFooter : List Char := "_return;\n".data

/-- A two-block document in the shape of `whitelist.sqf`: an `S3` block
holding `uidA` and an `ADMIN` block holding `uidB`. -/
def demoDoc : List Char :=
  demoHeader ++ demoBlock "S3" (replacementFor [uidA]) ++
    demoBlock "ADMIN" (replacementFor [uidB]) ++ demoFooter

/-- Everything after the `S3` bracket interior of `demoDoc`. -/
def demoPostS3 : List Char :=
  blockTail ++ demoBlock "ADMIN" (replacementFor [uidB]) ++ demoFooter

/-- Everything before the `ADMIN` guard of `demoDoc`. -/
def demoPreAdmin : List Char := demoHeader ++ demoBlock "S3" (replacementFor [uidA])

/-- Everything after the `ADMIN` bracket interior of `demoDoc`. -/
def demoPostAdmin : List Char := blockTail ++ demoFooter

/-- A document with an `S3` block holding one eighteen-digit identifier. -/
def legacyDoc : List Char :=
  demoHeader ++ demoBlock "S3" (replacementFor [uidL]) ++ demoFooter

/-- A document with no whitelist block at all. -/
def noBlockDoc : List Char := "// nothing here\n_return = [];\n".data

/-- Text that matches no guard (no quote after the marker word). -/
def garbageDoc : List Char := "]] if (_type isEqualTo S3) then \x7b _return = [ ]".data

/-- A database state with a warm, fresh cache and a query that returns
rows (one of them twice). -/
def demoEnvHit : DBEnv :=
  ⟨true, some 300, ["111"], 100, 200, some ["222", "333", "222"], ["444"]⟩

/-- A database state with a cold cache and a query that throws. -/
def demoEnvErr : DBEnv :=
  ⟨true, none, [], 0, 200, none, ["444"]⟩

/-- A database state whose query returns zero rows. -/
def demoEnvZero : DBEnv :=
  ⟨true, some 300, ["111"], 100, 200, some [], ["444"]⟩

/-! ### The claims -/

/-- C1: for every well-formed whitelist text `D`, every configured role
`R`, and every list `L` of nonempty digit-string identifiers, serializing
`L` into `D` for role `R` (`updateWhitelistInContent`) and then parsing
the result (`parseContent`) yields exactly `L`, in order, as role `R`'s
list: the codec round-trip law. -/
theorem C1_roundtrip {R : String} {D pre between old post : List Char}
    (hwf : WfAt R pre between old post D) (hR : R ∈ validRoles)
    (L : List (List Char)) (hL : ∀ u ∈ L, u ≠ [] ∧ u.all Char.isDigit = true) :
    (parseContent (updateWhitelistInContent D R L)).lookup R = some L := by
  rw [lookup_parseContent _ hR, parse_update hwf L hL]

/-- C1 at the concrete two-block document: overwrite the `S3` list with
two fresh identifiers and parse them back. -/
theorem C1_roundtrip_witness :
    (parseContent (updateWhitelistInContent demoDoc "S3" [uidB, uidC])).lookup "S3"
      = some [uidB, uidC] :=
  have hwf : WfAt "S3" demoHeader ['\n', '\t'] (replacementFor [uidA]) demoPostS3 demoDoc :=
    wfAt_of_b (by decide)
  C1_roundtrip hwf (by decide) [uidB, uidC] (by decide)

/-- C2: `addUid` fails with the invalid-role message when the role is not
configured, with the invalid-format message when the identifier is not
seventeen digits, and with the already-whitelisted message (leaving the
content unchanged) when the identifier is already listed; otherwise, on a
well-formed document, it appends the identifier at the end of the role's
list and writes it back, a second identical add reports
already-whitelisted without further change, and the stored list then
holds exactly one occurrence of the identifier. -/
theorem C2_addUid {D pre between old post : List Char} {role uid : String}
    (hwf : WfAt (upperS role) pre between old post D)
    (hvr : jsRoleValid role = true) (hvu : isSteam64 uid = true)
    (hnew : (curUids D (upperS role)).contains uid.data = false) :
    (∀ (D2 : List Char) (r u : String), jsRoleValid r = false →
      addUid D2 r u = (⟨false, invalidRoleMsg r⟩, D2)) ∧
    (∀ (D2 : List Char) (r u : String), jsRoleValid r = true → isSteam64 u = false →
      addUid D2 r u = (⟨false, invalidUidMsg u⟩, D2)) ∧
    (∀ (D2 : List Char) (r u : String), jsRoleValid r = true → isSteam64 u = true →
      (curUids D2 (upperS r)).contains u.data = true →
      addUid D2 r u = (⟨false, alreadyMsg u (upperS r)⟩, D2)) ∧
    addUid D role uid = (⟨true, addedMsg uid (upperS role)⟩,
      updateWhitelistInContent D (upperS role) (curUids D (upperS role) ++ [uid.data])) ∧
    curUids (addUid D role uid).2 (upperS role) = curUids D (upperS role) ++ [uid.data] ∧
    addUid (addUid D role uid).2 role uid =
      (⟨false, alreadyMsg uid (upperS role)⟩, (addUid D role uid).2) ∧
    (curUids (addUid D role uid).2 (upperS role)).count uid.data = 1 := by
  have hmem : upperS role ∈ validRoles := mem_validRoles_of_js hvr
  have hULd := isSteam64_spec hvu
  have hLok : ∀ u2 ∈ curUids D (upperS role) ++ [uid.data],
      u2 ≠ [] ∧ u2.all Char.isDigit = true := by
    intro u2 hu2
    rcases List.mem_append.mp hu2 with h2 | h2
    · rw [curUids_eq_parseRole hmem] at h2
      exact parseRole_digits D (upperS role) u2 h2
    · rw [List.mem_singleton] at h2
      subst h2
      exact ⟨hULd.1, hULd.2.1⟩
  have hupd := addUid_new hvr hvu hnew
  have hcur2 : curUids (addUid D role uid).2 (upperS role)
      = curUids D (upperS role) ++ [uid.data] := by
    rw [hupd, curUids_eq_parseRole hmem]
    exact parse_update hwf _ hLok
  refine ⟨fun D2 r u h => addUid_invalid_role h D2 u,
    fun D2 r u h1 h2 => addUid_invalid_uid h1 h2 D2,
    fun D2 r u h1 h2 h3 => addUid_already h1 h2 h3,
    hupd, hcur2, ?_, ?_⟩
  · have hc2 : (curUids (addUid D role uid).2 (upperS role)).contains uid.data = true := by
      rw [hcur2]
      exact contains_true_of_mem (by simp)
    exact addUid_already hvr hvu hc2
  · rw [hcur2, List.count_append,
      List.count_eq_zero.mpr (not_mem_of_contains_false hnew)]
    simp

/-- C2 at the concrete two-block document: add a third identifier to the
`ADMIN` block, passing the role in lower case. -/
theorem C2_addUid_witness :
    addUid demoDoc "admin" uidCS = (⟨true, addedMsg uidCS (upperS "admin")⟩,
      updateWhitelistInContent demoDoc (upperS "admin")
        (curUids demoDoc (upperS "admin") ++ [uidCS.data])) ∧
    curUids (addUid demoDoc "admin" uidCS).2 (upperS "admin")
      = curUids demoDoc (upperS "admin") ++ [uidCS.data] ∧
    addUid (addUid demoDoc "admin" uidCS).2 "admin" uidCS =
      (⟨false, alreadyMsg uidCS (upperS "admin")⟩, (addUid demoDoc "admin" uidCS).2) ∧
    (curUids (addUid demoDoc "admin" uidCS).2 (upperS "admin")).count uidCS.data = 1 :=
  have hwf : WfAt (upperS "admin") demoPreAdmin ['\n', '\t'] (replacementFor [uidB])
      demoPostAdmin demoDoc := wfAt_of_b (by decide)
  have h := C2_addUid hwf (by decide) (by decide) (by decide)
  ⟨h.2.2.2.1, h.2.2.2.2.1, h.2.2.2.2.2.1, h.2.2.2.2.2.2⟩

/-- C3: `removeUid` fails with the invalid-role message when the role is
not configured and with the not-whitelisted message (leaving the content
unchanged) when the identifier is absent from the role's list; otherwise,
on a well-formed document, it removes the identifier keeping the
remaining entries in order (a filter of the parsed list) and writes the
result back, and a second identical remove reports not-whitelisted. -/
theorem C3_removeUid {D pre between old post : List Char} {role uid : String}
    (hwf : WfAt (upperS role) pre between old post D)
    (hvr : jsRoleValid role = true)
    (hmem : (curUids D (upperS role)).contains uid.data = true) :
    (∀ (D2 : List Char) (r u : String), jsRoleValid r = false →
      removeUid D2 r u = (⟨false, invalidRoleMsg r⟩, D2)) ∧
    (∀ (D2 : List Char) (r u : String), jsRoleValid r = true →
      (curUids D2 (upperS r)).contains u.data = false →
      removeUid D2 r u = (⟨false, notInMsg u (upperS r)⟩, D2)) ∧
    removeUid D role uid = (⟨true, removedMsg uid (upperS role)⟩,
      updateWhitelistInContent D (upperS role)
        ((curUids D (upperS role)).filter (fun u2 => u2 != uid.data))) ∧
    curUids (removeUid D role uid).2 (upperS role)
      = (curUids D (upperS role)).filter (fun u2 => u2 != uid.data) ∧
    removeUid (removeUid D role uid).2 role uid =
      (⟨false, notInMsg uid (upperS role)⟩, (removeUid D role uid).2) := by
  have hvmem : upperS role ∈ validRoles := mem_validRoles_of_js hvr
  have hLok : ∀ u2 ∈ (curUids D (upperS role)).filter (fun u2 => u2 != uid.data),
      u2 ≠ [] ∧ u2.all Char.isDigit = true := by
    intro u2 hu2
    have h2 := List.mem_of_mem_filter hu2
    rw [curUids_eq_parseRole hvmem] at h2
    exact parseRole_digits D (upperS role) u2 h2
  have hupd := removeUid_hit hvr hmem
  have hcur2 : curUids (removeUid D role uid).2 (upperS role)
      = (curUids D (upperS role)).filter (fun u2 => u2 != uid.data) := by
    rw [hupd, curUids_eq_parseRole hvmem]
    exact parse_update hwf _ hLok
  refine ⟨fun D2 r u h => removeUid_invalid_role h D2 u,
    fun D2 r u h1 h2 => removeUid_not_in h1 h2,
    hupd, hcur2, ?_⟩
  have hc2 : (curUids (removeUid D role uid).2 (upperS role)).contains uid.data = false := by
    rw [hcur2]
    apply contains_false_of_not_mem
    intro hm
    have := List.of_mem_filter hm
    simp at this
  exact removeUid_not_in hvr hc2

/-- C3 at the concrete two-block document: remove the only `S3`
identifier, then remove it again. -/
theorem C3_removeUid_witness :
    removeUid demoDoc "S3" uidAS = (⟨true, removedMsg uidAS (upperS "S3")⟩,
      updateWhitelistInContent demoDoc (upperS "S3")
        ((curUids demoDoc (upperS "S3")).filter (fun u2 => u2 != uidAS.data))) ∧
    curUids (removeUid demoDoc "S3" uidAS).2 (upperS "S3")
      = (curUids demoDoc (upperS "S3")).filter (fun u2 => u2 != uidAS.data) ∧
    removeUid (removeUid demoDoc "S3" uidAS).2 "S3" uidAS =
      (⟨false, notInMsg uidAS (upperS "S3")⟩, (removeUid demoDoc "S3" uidAS).2) :=
  have hwf : WfAt (upperS "S3") demoHeader ['\n', '\t'] (replacementFor [uidA])
      demoPostS3 demoDoc := wfAt_of_b (by decide)
  have h := C3_removeUid hwf (by decide) (by decide)
  ⟨h.2.2.1, h.2.2.2.1, h.2.2.2.2⟩

/-- C4 (amended): `getUids` performs no role validation and has no
failure channel at all: for a role whose upper-cased form is configured
it returns the parsed entry of the current content, and for any other
role it returns the empty list — it never reports InvalidRole. -/
theorem C4_getUids (content : List Char) (role : String) :
    (upperS role ∈ validRoles → getUids content role = parseRole content (upperS role)) ∧
    (upperS role ∉ validRoles → getUids content role = []) := by
  constructor
  · intro h
    unfold getUids
    rw [lookup_parseContent _ h]
    rfl
  · intro h
    unfold getUids
    rw [lookup_parseContent_not _ h]
    rfl

/-- C4 counterexample to the claimed behavior: `BOGUS` is not a
configured role, yet `getUids` returns the empty list for it rather than
any InvalidRole failure — unlike `addUid` and `removeUid`, `getUids`
returns a bare list and has no error result. -/
theorem C4_counterexample :
    jsRoleValid "BOGUS" = false ∧ getUids demoDoc "BOGUS" = [] := by
  constructor
  · decide
  · unfold getUids
    rw [lookup_parseContent_not _ (by decide)]
    rfl

/-- C4 at concrete inputs: a configured role returns the parsed list, an
unconfigured one the empty list. -/
theorem C4_getUids_witness :
    getUids demoDoc "s3" = parseRole demoDoc (upperS "s3") ∧
    getUids demoDoc "STAFF" = [] :=
  ⟨(C4_getUids demoDoc "s3").1 (by decide),
   (C4_getUids demoDoc "STAFF").2 (by decide)⟩

/-- C5: a successful add or remove for a role rewrites only the bracket
interior of that role's guarded block: the output is the input's prefix
(everything before the block's `_return = [`, comments and other blocks
included), then the unchanged guard, body and `_return = [` text, then
the new interior, then the unchanged `]` and the entire unchanged rest of
the document. -/
theorem C5_frame {D pre between old post : List Char} {role uid : String}
    (hwf : WfAt (upperS role) pre between old post D)
    (hvr : jsRoleValid role = true) (hvu : isSteam64 uid = true) :
    ((addUid D role uid).1.success = true →
      (addUid D role uid).2 = pre ++ guardText (upperS role) ++ between ++ retL ++
        replacementFor (curUids D (upperS role) ++ [uid.data]) ++ ']' :: post) ∧
    ((removeUid D role uid).1.success = true →
      (removeUid D role uid).2 = pre ++ guardText (upperS role) ++ between ++ retL ++
        replacementFor ((curUids D (upperS role)).filter (fun u2 => u2 != uid.data)) ++
        ']' :: post) := by
  constructor
  · intro hs
    cases hc : (curUids D (upperS role)).contains uid.data with
    | true =>
      rw [addUid_already hvr hvu hc] at hs
      simp at hs
    | false =>
      rw [addUid_new hvr hvu hc]
      show updateWhitelistInContent D (upperS role) (curUids D (upperS role) ++ [uid.data]) = _
      rw [update_wf hwf]
      simp [List.append_assoc]
  · intro hs
    cases hc : (curUids D (upperS role)).contains uid.data with
    | false =>
      rw [removeUid_not_in hvr hc] at hs
      simp at hs
    | true =>
      rw [removeUid_hit hvr hc]
      show updateWhitelistInContent D (upperS role)
        ((curUids D (upperS role)).filter (fun u2 => u2 != uid.data)) = _
      rw [update_wf hwf]
      simp [List.append_assoc]

/-- C5 at the concrete two-block document: a successful add and a
successful remove each keep the document's prefix and suffix
byte-identical around the new `S3` interior. -/
theorem C5_frame_witness :
    (addUid demoDoc "S3" uidCS).2 =
      demoHeader ++ guardText (upperS "S3") ++ ['\n', '\t'] ++ retL ++
        replacementFor (curUids demoDoc (upperS "S3") ++ [uidCS.data]) ++
        ']' :: demoPostS3 ∧
    (removeUid demoDoc "S3" uidAS).2 =
      demoHeader ++ guardText (upperS "S3") ++ ['\n', '\t'] ++ retL ++
        replacementFor ((curUids demoDoc (upperS "S3")).filter (fun u2 => u2 != uidAS.data)) ++
        ']' :: demoPostS3 :=
  have hwf : WfAt (upperS "S3") demoHeader ['\n', '\t'] (replacementFor [uidA])
      demoPostS3 demoDoc := wfAt_of_b (by decide)
  ⟨(C5_frame hwf (by decide) (by decide)).1 (by decide),
   (C5_frame hwf (by decide) (by decide)).2 (by decide)⟩

/-- C6: parsing is total and lenient: every configured role always has an
entry in the parsed map (parsing never fails on any input text); a role
whose guarded block does not match yields the empty list; a matching
block none of whose comma-separated tokens cleans up to a nonempty digit
string also yields the empty list; and every identifier the parser does
return is a nonempty digit string. -/
theorem C6_parse_total (content : List Char) (role : String) (hrole : role ∈ validRoles) :
    (parseContent content).lookup role = some (parseRole content role) ∧
    (findMatch role true content = none → parseRole content role = []) ∧
    (∀ p1 p2 interior p4, findMatch role true content = some (p1, p2, interior, p4) →
      ((splitComma interior).map cleanTok).all (fun t => !(isDigitTok t)) = true →
      parseRole content role = []) ∧
    (∀ t ∈ parseRole content role, t ≠ [] ∧ t.all Char.isDigit = true) := by
  refine ⟨lookup_parseContent content hrole, ?_, ?_, parseRole_digits content role⟩
  · intro h
    unfold parseRole
    rw [h]
  · intro p1 p2 interior p4 h hall
    unfold parseRole
    rw [h]
    show extractUids interior = []
    unfold extractUids
    apply List.filter_eq_nil_iff.mpr
    intro a ha
    have hna := List.all_eq_true.mp hall a ha
    simp only [Bool.not_eq_eq_eq_not, Bool.not_true] at hna
    simp [hna]

/-- C6 at concrete garbage text: the guard pattern does not match, and
the role degrades to the empty list inside a total parse map. -/
theorem C6_parse_total_witness :
    (parseContent garbageDoc).lookup "CAS" = some (parseRole garbageDoc "CAS") ∧
    parseRole garbageDoc "CAS" = [] :=
  ⟨(C6_parse_total garbageDoc "CAS" (by decide)).1,
   (C6_parse_total garbageDoc "CAS" (by decide)).2.1 (by decide)⟩

/-- C7 (amended): role validation is case-insensitive, with upper-case
normalization before lookup, only in the text-file variant; the SQF
database variant checks the type with the case-sensitive `in` operator
and no normalization, so any role whose upper-cased form is configured
but whose exact spelling is not is accepted by the text variant and
rejected by the database variant, which then returns the empty whitelist
and leaves its state untouched. -/
theorem C7_role_validation (role : String)
    (h1 : upperS role ∈ validRoles) (h2 : role ∉ validTypes) :
    jsRoleValid role = true ∧ sqfTypeCheck role = false ∧
    ∀ env : DBEnv, whitelistDB role false env = ([], env) := by
  have hsq : sqfTypeCheck role = false := by
    unfold sqfTypeCheck
    exact contains_false_of_not_mem h2
  refine ⟨?_, hsq, fun env => ?_⟩
  · unfold jsRoleValid
    exact contains_true_of_mem h1
  · unfold whitelistDB
    rw [hsq]
    simp

/-- C7 counterexample to the claimed uniformity: the lower-case role
`admin` normalizes to the configured code `ADMIN` and passes the text
variant's check, but the database variant rejects it and returns the
empty whitelist even though `ADMIN` has a cached entry. -/
theorem C7_counterexample :
    upperS "admin" = "ADMIN" ∧ jsRoleValid "admin" = true ∧
    sqfTypeCheck "admin" = false ∧
    (whitelistDB "admin" false demoEnvHit).1 = [] ∧
    (whitelistDB "ADMIN" false demoEnvHit).1 = ["111"] := by
  refine ⟨?_, ?_, ?_, ?_, ?_⟩ <;> decide

/-- C7 at the concrete role `admin`: accepted by the text variant,
rejected with an empty result by the database variant. -/
theorem C7_role_validation_witness :
    jsRoleValid "admin" = true ∧ sqfTypeCheck "admin" = false ∧
    whitelistDB "admin" false demoEnvErr = ([], demoEnvErr) :=
  have h := C7_role_validation "admin" (by decide) (by decide)
  ⟨h.1, h.2.1, h.2.2 demoEnvErr⟩

/-- C8: in the database read path, the cache expiry duration defaults to
300 seconds, an elapsed duration invalidates the cache, a valid cache is
returned as-is without touching the state, the force-refresh flag
bypasses the cache and queries the database, the path falls back to the
file-based whitelist when the query throws or returns zero rows, and a
refreshed result is written back to the cache with the current time. -/
theorem C8_db_cache (t : String) (env : DBEnv)
    (ht : sqfTypeCheck t = true) (hdb : env.dbEnabled = true) :
    (env.cacheDurationVar = none → cacheDuration env = 300) ∧
    (env.currentTime - env.cacheTime ≥ cacheDuration env → cacheValid env = false) ∧
    (cacheValid env = true → whitelistDB t false env = (env.cached, env)) ∧
    (whitelistDB t true env).1 =
      (if (dbQueryReturn env).length = 0 then env.fileWhitelist else dbQueryReturn env) ∧
    (env.queryOutcome = none → (whitelistDB t true env).1 = env.fileWhitelist) ∧
    (env.queryOutcome = none → cacheValid env = false →
      (whitelistDB t false env).1 = env.fileWhitelist) ∧
    (env.queryOutcome = some [] → (whitelistDB t true env).1 = env.fileWhitelist) ∧
    (whitelistDB t true env).2.cached = (whitelistDB t true env).1 ∧
    (whitelistDB t true env).2.cacheTime = env.currentTime := by
  have hforce : (whitelistDB t true env).1 =
      (if (dbQueryReturn env).length = 0 then env.fileWhitelist else dbQueryReturn env) := by
    unfold whitelistDB
    rw [ht, hdb]
    by_cases hz : (dbQueryReturn env).length = 0 <;> simp [hz]
  refine ⟨?_, ?_, ?_, hforce, ?_, ?_, ?_, ?_, ?_⟩
  · intro h
    unfold cacheDuration
    rw [h]
    rfl
  · intro h
    unfold cacheValid
    have hlt : ¬ (env.currentTime - env.cacheTime < cacheDuration env) := not_lt.mpr h
    simp [hlt]
  · intro h
    unfold whitelistDB
    rw [ht, hdb]
    simp [h]
  · intro h
    rw [hforce]
    have hq : dbQueryReturn env = env.fileWhitelist := by
      unfold dbQueryReturn
      rw [h]
    rw [hq]
    simp
  · intro h hcv
    unfold whitelistDB
    rw [ht, hdb]
    have hq : dbQueryReturn env = env.fileWhitelist := by
      unfold dbQueryReturn
      rw [h]
    simp [hcv, hq]
  · intro h
    rw [hforce]
    have hq : dbQueryReturn env = [] := by
      unfold dbQueryReturn
      rw [h]
      rfl
    rw [hq]
    simp
  · unfold whitelistDB
    rw [ht, hdb]
    rfl
  · unfold whitelistDB
    rw [ht, hdb]
    rfl

/-- C8 at concrete database states: the default duration, a cache hit, a
forced refresh past a valid cache, the fallback on a throwing query, the
fallback on zero rows, and the cache-time write-back. -/
theorem C8_db_cache_witness :
    cacheDuration demoEnvErr = 300 ∧
    whitelistDB "S3" false demoEnvHit = (demoEnvHit.cached, demoEnvHit) ∧
    (whitelistDB "S3" true demoEnvHit).1 = ["222", "333"] ∧
    (whitelistDB "S3" false demoEnvErr).1 = demoEnvErr.fileWhitelist ∧
    (whitelistDB "S3" true demoEnvZero).1 = demoEnvZero.fileWhitelist ∧
    (whitelistDB "S3" true demoEnvHit).2.cacheTime = demoEnvHit.currentTime :=
  ⟨(C8_db_cache "S3" demoEnvErr (by decide) (by decide)).1 (by decide),
   (C8_db_cache "S3" demoEnvHit (by decide) (by decide)).2.2.1 (by decide),
   ((C8_db_cache "S3" demoEnvHit (by decide) (by decide)).2.2.2.1).trans (by decide),
   (C8_db_cache "S3" demoEnvErr (by decide) (by decide)).2.2.2.2.2.1 (by decide) (by decide),
   (C8_db_cache "S3" demoEnvZero (by decide) (by decide)).2.2.2.2.2.2.1 (by decide),
   (C8_db_cache "S3" demoEnvHit (by decide) (by decide)).2.2.2.2.2.2.2.2⟩

/-- C9: when the text contains no guarded block for a valid role, adding
a fresh valid identifier still reports success while the written content
is byte-identical to the input: the identifier is silently dropped, and a
subsequent list of the role does not contain it. -/
theorem C9_silent_noop {D : List Char} {role uid : String}
    (hvr : jsRoleValid role = true) (hvu : isSteam64 uid = true)
    (hnb : findMatch (upperS role) false D = none)
    (hnew : (curUids D (upperS role)).contains uid.data = false) :
    (addUid D role uid).1.success = true ∧
    (addUid D role uid).2 = D ∧
    getUids (addUid D role uid).2 role = getUids D role ∧
    uid.data ∉ getUids (addUid D role uid).2 role := by
  have hupd := addUid_new hvr hvu hnew
  have hid : updateWhitelistInContent D (upperS role)
      (curUids D (upperS role) ++ [uid.data]) = D := by
    unfold updateWhitelistInContent
    rw [hnb]
  have h2 : (addUid D role uid).2 = D := by
    rw [hupd]
    exact hid
  refine ⟨by rw [hupd], h2, by rw [h2], ?_⟩
  rw [h2]
  exact not_mem_of_contains_false hnew

/-- C9 at a concrete blockless document. -/
theorem C9_silent_noop_witness :
    (addUid noBlockDoc "S3" uidCS).1.success = true ∧
    (addUid noBlockDoc "S3" uidCS).2 = noBlockDoc ∧
    getUids (addUid noBlockDoc "S3" uidCS).2 "S3" = getUids noBlockDoc "S3" ∧
    uidCS.data ∉ getUids (addUid noBlockDoc "S3" uidCS).2 "S3" :=
  C9_silent_noop (by decide) (by decide) (by decide) (by decide)

/-- C10: the parser keeps every digit token regardless of its length: a
well-formed block holding one identifier of any nonzero digit count other
than seventeen is listed by `getUids`, while `addUid` rejects that very
identifier with the invalid-format error — so some file contents list
identifiers the add operation would refuse. -/
theorem C10_legacy {D pre between post : List Char} {R : String} {u : List Char}
    (hwf : WfAt R pre between (replacementFor [u]) post D)
    (hR : R ∈ validRoles) (hUp : upperS R = R)
    (hne : u ≠ []) (hdig : u.all Char.isDigit = true) (hlen : u.length ≠ 17)
    (uidS : String) (hu : uidS.data = u) :
    getUids D R = [u] ∧ isSteam64 uidS = false ∧
    addUid D R uidS = (⟨false, invalidUidMsg uidS⟩, D) := by
  have hparse : parseRole D R = [u] := by
    unfold parseRole
    rw [findMatch_wf true hwf (fun _ => replacementFor_ne_nil [u])]
    exact extractUids_replacement [u] (by
      intro x hx
      rw [List.mem_singleton] at hx
      subst hx
      exact ⟨hne, hdig⟩)
  have hsteam : isSteam64 uidS = false := by
    unfold isSteam64
    rw [hu]
    have hb : (u.length == 17) = false := by
      simp [hlen]
    rw [hb]
    simp
  have hjs : jsRoleValid R = true := by
    unfold jsRoleValid
    rw [hUp]
    exact contains_true_of_mem hR
  refine ⟨?_, hsteam, addUid_invalid_uid hjs hsteam D⟩
  unfold getUids
  rw [hUp, lookup_parseContent _ hR, hparse]
  rfl

/-- C10 at a concrete document holding an eighteen-digit legacy
identifier. -/
theorem C10_legacy_witness :
    getUids legacyDoc "S3" = [uidL] ∧ isSteam64 uidLS = false ∧
    addUid legacyDoc "S3" uidLS = (⟨false, invalidUidMsg uidLS⟩, legacyDoc) :=
  have hwf : WfAt "S3" demoHeader ['\n', '\t'] (replacementFor [uidL])
      (blockTail ++ demoFooter) legacyDoc := wfAt_of_b (by decide)
  C10_legacy hwf (by decide) (by decide) (by decide) (by decide) (by decide) uidLS rfl

end Apex
